import Mathlib

/-!
Verification development for the magepack bundling tool.

This file gives a shallow embedding of the pure cores of:
* the bundle classifier (`lib/generate/extractCommonBundle.js`),
* the bundle processor (`lib/bundle/processor.js` and the processBundle
  variant in `lib/bundle.js`): module resolution, sensitive-strategy
  selection, minification fallback and artifact writing,
* the loader-configuration merger (`injectConfigIntoMain` in `lib/bundle.js`),
* the anonymous-AMD rewriter (`wrapAnonymousAmd`),
* the minification auto-detection (`lib/bundle/checkMinifyOn.js` together
  with its orchestrator call sites),
and proves or refutes the specified properties of these components.

Filesystem access, the terser minifier, the acorn parser and the zlib
compressors are external to the repository; they are modelled as explicit
function parameters (existence/read oracles, a terser outcome value, a
parse oracle, abstract compressors).  JavaScript strings are modelled as
`String`/`List Char`; JavaScript objects used as ordered string maps are
modelled as association lists in insertion order, which is how V8
enumerates string keys.
-/

namespace Magepack

/-! ## Basic string helpers -/

/-- Lowercases an ASCII letter, models `String.prototype.toLowerCase` on the
ASCII range used by the case-insensitive regexes in the source. -/
def toLowerChar (c : Char) : Char :=
  if 'A' ≤ c ∧ c ≤ 'Z' then Char.ofNat (c.toNat + 32) else c

/-- Lowercases a string (ASCII range). -/
def lowerStr (s : String) : String := String.mk (s.toList.map toLowerChar)

/-- Substring test, models an unanchored regex literal test such as
`/paypal/.test(name)`. -/
def strContains (s pat : String) : Bool := decide (pat.toList <:+: s.toList)

/-- Test whether `p` begins `s`; models a `^`-anchored regex test. -/
def strStartsWith (s p : String) : Bool := p.toList.isPrefixOf s.toList

/-- Test whether `p` ends `s`; models a `$`-anchored regex test. -/
def strEndsWith (s p : String) : Bool := p.toList.isSuffixOf s.toList

/-! ## Bundle processor (`lib/bundle/processor.js`, `lib/bundle.js`) -/

/-- Sensitive module name fragments, from `SENSITIVE_PATTERNS` in
`lib/bundle/processor.js` (each regex is a plain lowercase literal with
the `i` flag). -/
def SENSITIVE_PATTERNS : List String :=
  ["paypal", "braintree", "adyen", "stripe", "amazon"]

/-- Models `hasSensitiveModules` from `lib/bundle/processor.js`:
`moduleNames.some(name => SENSITIVE_PATTERNS.some(p => p.test(name)))`. -/
def hasSensitiveModules (moduleNames : List String) : Bool :=
  moduleNames.any (fun n => SENSITIVE_PATTERNS.any (fun p => strContains (lowerStr n) p))

/-- Models JavaScript `a || b` for strings with an optional left operand:
`undefined` and the empty string are falsy. -/
def jsOrString (v : Option String) (d : String) : String :=
  match v with
  | none => d
  | some s => if s = "" then d else s

/-- CLI options reaching `processBundle` (the `options` object). -/
structure ProcOptions where
  minify : Bool
  minifyStrategy : Option String
  sourcemap : Bool
deriving DecidableEq

/-- Models `const requestedStrategy = options.minifyStrategy || 'safe';`. -/
def requestedStrategy (o : ProcOptions) : String := jsOrString o.minifyStrategy "safe"

/-- Models `const effectiveStrategy = containsSensitive ? 'safe' : requestedStrategy;`
from `lib/bundle/processor.js`. -/
def effectiveStrategy (o : ProcOptions) (moduleNames : List String) : String :=
  if hasSensitiveModules moduleNames then "safe" else requestedStrategy o

/-- Models the strategy selection of the legacy `processBundle` in
`lib/bundle.js` (line 390):
`const strategy = options.minifyStrategy === 'aggressive' ? 'aggressive' : 'safe';`
This variant performs no sensitivity check at all. -/
def libProcessBundleStrategy (o : ProcOptions) : String :=
  if o.minifyStrategy = some "aggressive" then "aggressive" else "safe"

/-- Node `fs.access` rejection message for a missing path. -/
def enoentMsg (p : String) : String :=
  "ENOENT: no such file or directory, access \x27" ++ p ++ "\x27"

/-- Models the `isStatic` test of `resolveFile`: plugin-prefixed names and
explicit static extensions (the extension regex carries the `i` flag). -/
def isStaticModule (moduleName fullPath : String) : Bool :=
  strStartsWith moduleName "text!" ||
  strStartsWith moduleName "domReady!" ||
  strEndsWith (lowerStr fullPath) ".html" ||
  strEndsWith (lowerStr fullPath) ".json" ||
  strEndsWith (lowerStr fullPath) ".css" ||
  strEndsWith (lowerStr fullPath) ".txt" ||
  strEndsWith (lowerStr fullPath) ".svg"

/-- Models `path.resolve(rootDir, modulePath)` for the production case of a
relative module path under an absolute root, i.e. plain joining. -/
def jsFullPath (rootDir modulePath : String) : String := rootDir ++ "/" ++ modulePath

/-- Models `const basePath = fullPath.endsWith('.js') ? fullPath.slice(0, -3) : fullPath;`. -/
def jsBasePath (rootDir modulePath : String) : String :=
  if strEndsWith (jsFullPath rootDir modulePath) ".js" then
    (jsFullPath rootDir modulePath).dropRight 3
  else jsFullPath rootDir modulePath

/-- The `.min.js` filename variant built by `resolveFile`. -/
def minifiedCandidate (rootDir modulePath : String) : String :=
  jsBasePath rootDir modulePath ++ ".min.js"

/-- The plain `.js` filename variant built by `resolveFile`. -/
def standardCandidate (rootDir modulePath : String) : String :=
  jsBasePath rootDir modulePath ++ ".js"

/-- The variant `resolveFile` tries first, chosen by the minification mode. -/
def primaryCandidate (rootDir modulePath : String) (isMinifyOn : Bool) : String :=
  if isMinifyOn then minifiedCandidate rootDir modulePath
  else standardCandidate rootDir modulePath

/-- The variant `resolveFile` tries second. -/
def fallbackCandidate (rootDir modulePath : String) (isMinifyOn : Bool) : String :=
  if isMinifyOn then standardCandidate rootDir modulePath
  else minifiedCandidate rootDir modulePath

/-- Models `resolveFile` from `lib/bundle/processor.js` (identical in
`lib/bundle.js`).  `fe` is the `fs.access` existence oracle.  On the JS
branch the function builds the `.min.js` and `.js` variants, tries the
mode-preferred one first and the other second; when both `fs.access` calls
reject, the error that escapes is the second `fs.access` rejection, which
names only the fallback path. -/
def resolveFile (fe : String → Bool) (rootDir moduleName modulePath : String)
    (isMinifyOn : Bool) : Except String String :=
  let fullPath := jsFullPath rootDir modulePath
  if isStaticModule moduleName fullPath then
    if fe fullPath then Except.ok fullPath else Except.error (enoentMsg fullPath)
  else
    let primaryPath := primaryCandidate rootDir modulePath isMinifyOn
    let fallbackPath := fallbackCandidate rootDir modulePath isMinifyOn
    if fe primaryPath then Except.ok primaryPath
    else if fe fallbackPath then Except.ok fallbackPath
    else Except.error (enoentMsg fallbackPath)

/-- Models STEP 1 of `processBundle` (collection and wrapping): each module is
resolved (`resolveFile`), read (`fread`, the `fs.readFile` oracle) and wrapped
(`wrap`, the external `moduleWrapper`); a module whose resolution or read
fails is skipped with a warning and contributes nothing.  `rmap` is the path
resolver returned by `createPathResolver`. -/
def collectSources (fe : String → Bool) (fread : String → Option String)
    (rmap : String → String) (wrap : String → String → String → String)
    (localePath : String) (isMinifyOn : Bool)
    (modules : List (String × String)) : List (String × String) :=
  modules.foldl (fun acc kv =>
    match resolveFile fe localePath kv.1 (rmap kv.2) isMinifyOn with
    | Except.ok absPath =>
      match fread absPath with
      | some content => acc ++ [(kv.1, wrap kv.1 content absPath)]
      | none => acc
    | Except.error _ => acc) []

/-- Models `Object.values(sources).join('\n')`. -/
def joinNL (xs : List String) : String := String.intercalate "\n" xs

/-- Outcome of the external `terser.minify` invocation: either the promise
rejects (`crash`), or it resolves with optional `code` and `map` fields. -/
inductive TerserOutcome where
  | crash : TerserOutcome
  | ok : Option String → Option String → TerserOutcome
deriving DecidableEq

/-- Models `shouldMinifyContent = Boolean(options.minify) || effectiveStrategy === 'aggressive'`. -/
def shouldMinifyContent (o : ProcOptions) (moduleNames : List String) : Bool :=
  o.minify || (effectiveStrategy o moduleNames == "aggressive")

/-- Models STEP 2 and STEP 3 of `processBundle` in `lib/bundle/processor.js`:
the final content written for the bundle.  When terser is invoked and the
promise rejects, the catch block falls back to the raw newline join of the
wrapped sources; when it resolves, a truthy `result.code` is used and a falsy
one leaves the initial empty string. -/
def processorFinalContent (o : ProcOptions) (moduleNames : List String)
    (outcome : TerserOutcome) (sources : List String) : String :=
  if shouldMinifyContent o moduleNames || o.sourcemap then
    match outcome with
    | TerserOutcome.crash => joinNL sources
    | TerserOutcome.ok code _ => code.getD ""
  else joinNL sources

/-- Page bundle description as read from `magepack.config.js`: a name and an
ordered map from logical module id to hinted path. -/
structure BundleSpec where
  name : String
  modules : List (String × String)
deriving DecidableEq

/-- Models `` `bundle-${bundle.name}${outputExt}` `` with the minify suffix. -/
def bundleFilenameOf (b : BundleSpec) (isMinifyOn : Bool) : String :=
  "bundle-" ++ b.name ++ (if isMinifyOn then ".min.js" else ".js")

/-- Models `path.join(localePath, 'magepack', bundleFilename)`. -/
def destPathOf (localePath : String) (b : BundleSpec) (isMinifyOn : Bool) : String :=
  localePath ++ "/magepack/" ++ bundleFilenameOf b isMinifyOn

/-- Models the filesystem writes performed by one `processBundle` call in
`lib/bundle/processor.js` as an ordered list of (path, content) pairs.
When no module could be collected (`successCount === 0`) the function
returns before writing anything.  Otherwise it writes the optional source
map (only when terser resolved with truthy code and map and a map was
requested), the bundle file, and its gzip and brotli siblings (`gz` and
`br` model the external zlib compressors). -/
def processBundleWrites (o : ProcOptions) (bundle : BundleSpec)
    (fe : String → Bool) (fread : String → Option String)
    (rmap : String → String) (wrap : String → String → String → String)
    (gz br : String → String)
    (localePath : String) (isMinifyOn : Bool) (outcome : TerserOutcome) :
    List (String × String) :=
  let destPath := destPathOf localePath bundle isMinifyOn
  let collected := collectSources fe fread rmap wrap localePath isMinifyOn bundle.modules
  if collected.length = 0 then []
  else
    let moduleNames := bundle.modules.map Prod.fst
    let fc := processorFinalContent o moduleNames outcome (collected.map Prod.snd)
    let mapWrites :=
      if shouldMinifyContent o moduleNames || o.sourcemap then
        match outcome with
        | TerserOutcome.ok (some c) (some m) =>
          if c ≠ "" ∧ m ≠ "" ∧ o.sourcemap then [(destPath ++ ".map", m)] else []
        | _ => []
      else []
    mapWrites ++ [(destPath, fc), (destPath ++ ".gz", gz fc), (destPath ++ ".br", br fc)]

/-- Writes of a whole locale run: `config.map(bundle => processBundle(...))`,
concatenated. -/
def processLocaleWrites (o : ProcOptions) (bundles : List BundleSpec)
    (fe : String → Bool) (fread : String → Option String)
    (rmap : String → String) (wrap : String → String → String → String)
    (gz br : String → String)
    (localePath : String) (isMinifyOn : Bool) (outcome : TerserOutcome) :
    List (String × String) :=
  (bundles.map (fun b =>
    processBundleWrites o b fe fread rmap wrap gz br localePath isMinifyOn outcome)).flatten

/-! ## Bundle classifier (`lib/generate/extractCommonBundle.js`) -/

/-- Sharing threshold, the `MIN_USAGE_THRESHOLD` constant (value 3 in the
source). -/
def MIN_USAGE_THRESHOLD : Nat := 3

/-- The `CRITICAL_EXACT_MODULES` list. -/
def CRITICAL_EXACT_MODULES : List String :=
  ["Magento_PageCache/js/form-key-provider",
   "Magento_Theme/js/responsive",
   "Magento_Theme/js/theme",
   "Magento_Translation/js/mage-translation-dictionary",
   "Magento_Ui/js/core/app",
   "Magento_Ui/js/modal/modal"]

/-- ASCII uppercase letter test (regex class `[A-Z]`). -/
def isUpperAZ (c : Char) : Bool := 'A' ≤ c && c ≤ 'Z'

/-- ASCII lowercase letter test. -/
def isLowerAZ (c : Char) : Bool := 'a' ≤ c && c ≤ 'z'

/-- ASCII digit test. -/
def isDigit09 (c : Char) : Bool := '0' ≤ c && c ≤ '9'

/-- Regex class `[a-zA-Z0-9]`. -/
def isAlnumAZ09 (c : Char) : Bool := isUpperAZ c || isLowerAZ c || isDigit09 c

/-- Models `.replace(/^[^!]+!/, '')`: when the string has a first exclamation
mark at index at least 1, everything through it is removed; a leading
exclamation mark or no exclamation mark leaves the string unchanged. -/
def stripLoaderPlugin (cs : List Char) : List Char :=
  match cs.findIdx? (fun c => c == '!') with
  | some k => if 1 ≤ k then cs.drop (k + 1) else cs
  | none => cs

/-- Models `.replace(/\.js$/, '')`. -/
def stripJsExt (cs : List Char) : List Char :=
  if ".js".toList.isSuffixOf cs then cs.take (cs.length - 3) else cs

/-- Models `cleanModuleName` from `lib/generate/extractCommonBundle.js`. -/
def cleanModuleName (s : String) : String :=
  String.mk (stripJsExt (stripLoaderPlugin s.toList))

/-- Models the `CRITICAL_PATTERN_MODULES` regex list tests.  Each regex is
anchored and free of backtracking ambiguity, so each translates to a direct
string test (see the pattern comments in the source). -/
def matchesCriticalPattern (s : String) : Bool :=
  (strStartsWith s "mage/" &&
    !(strStartsWith (String.mk (s.toList.drop 5)) "calendar") &&
    !(strStartsWith (String.mk (s.toList.drop 5)) "gallery")) ||
  strStartsWith s "requirejs/" ||
  s == "text" ||
  s == "domReady" ||
  s == "jquery/jquery.js" ||
  s == "jquery/jquery.min.js" ||
  strStartsWith s "jquery/jquery-migrate" ||
  strStartsWith s "jquery/jquery-storageapi" ||
  s == "underscore" ||
  s == "knockoutjs/knockout"

/-- Models `isCriticalInfrastructure`. -/
def isCriticalInfrastructure (cleanName : String) : Bool :=
  CRITICAL_EXACT_MODULES.contains cleanName || matchesCriticalPattern cleanName

/-- Models `MAGENTO_MODULE_REGEX.test`, the anchored regex
matching an uppercase letter, one or more alphanumerics, an underscore,
an uppercase letter, one or more alphanumerics and a slash.  The character
class excludes both the underscore and the slash, so greedy matching is
deterministic and the regex translates to this scanner. -/
def magentoModuleNaming (s : String) : Bool :=
  match s.toList with
  | [] => false
  | c0 :: rest =>
    isUpperAZ c0 &&
    (let a1 := rest.takeWhile isAlnumAZ09
     !a1.isEmpty &&
     match rest.drop a1.length with
     | '_' :: c2 :: r3 =>
       isUpperAZ c2 &&
       (let a2 := r3.takeWhile isAlnumAZ09
        !a2.isEmpty &&
        match r3.drop a2.length with
        | '/' :: _ => true
        | _ => false)
     | _ => false)

/-- Case-insensitive extension test for `/\.(html|json)$/i`. -/
def endsWithCI (s p : String) : Bool := strEndsWith (lowerStr s) p

/-- Models `getTargetBundleType`. -/
def getTargetBundleType (cleanName : String) : String :=
  if endsWithCI cleanName ".html" || endsWithCI cleanName ".json" then "common"
  else if isCriticalInfrastructure cleanName then "vendor"
  else if magentoModuleNaming cleanName then "common"
  else "vendor"

/-- Modelled from the spec: the `isCommon` predicate imported from
`blockMagepack.js`, whose source is not part of this tree, is the
"explicit always-common override" — modules explicitly configured (in
`magepack.config.js`) to be extracted; it is modelled as membership in the
configured override list, passed as a parameter. -/
def isCommonOverride (overrides : List String) (m : String) : Bool :=
  overrides.contains m

/-- STEP 1 of the classifier, second half: the global first-seen discovery
order of module names across all page bundles
(`if (!discoveryOrder.includes(moduleName)) discoveryOrder.push(moduleName)`). -/
def discoveryOrder (bundles : List BundleSpec) : List String :=
  bundles.foldl (fun acc b =>
    b.modules.foldl (fun a kv => if a.contains kv.1 then a else a ++ [kv.1]) acc) []

/-- STEP 1 of the classifier, first half: usage count of a module name
across all page bundles. -/
def usageCount (bundles : List BundleSpec) (m : String) : Nat :=
  bundles.foldl (fun n b => n + b.modules.countP (fun kv => kv.1 == m)) 0

/-- JavaScript `Map.prototype.set` on an insertion-ordered association list:
an existing key is updated in place, a new key is appended. -/
def mapSet (m : List (String × String)) (k v : String) : List (String × String) :=
  if m.any (fun kv => kv.1 == k) then
    m.map (fun kv => if kv.1 == k then (k, v) else kv)
  else m ++ [(k, v)]

/-- Models the truthiness test `b.modules[moduleName]` (an absent key and an
empty-string path are both falsy) together with the subsequent read of the
path. -/
def truthyModulePath (b : BundleSpec) (m : String) : Option String :=
  match b.modules.find? (fun kv => kv.1 == m) with
  | some kv => if kv.2 = "" then none else some kv.2
  | none => none

/-- Models `bundles.find((b) => b.modules[moduleName])`. -/
def findSourceBundle (bundles : List BundleSpec) (m : String) : Option BundleSpec :=
  bundles.find? (fun b => (truthyModulePath b m).isSome)

/-- The extraction decision of STEP 2:
`isForced || isShared || isConfigured` for one module name. -/
def extractionDecision (overrides : List String) (bundles : List BundleSpec)
    (moduleName : String) : Bool :=
  isCriticalInfrastructure (cleanModuleName moduleName) ||
  decide (MIN_USAGE_THRESHOLD ≤ usageCount bundles moduleName) ||
  isCommonOverride overrides moduleName

/-- STEP 2 of the classifier, body of the `discoveryOrder.forEach` loop:
decide whether the module is extracted and route it into the vendor or
common accumulator map. -/
def routeModule (overrides : List String) (bundles : List BundleSpec)
    (acc : List (String × String) × List (String × String)) (moduleName : String) :
    List (String × String) × List (String × String) :=
  let cleanName := cleanModuleName moduleName
  if extractionDecision overrides bundles moduleName then
    match findSourceBundle bundles moduleName with
    | some sourceBundle =>
      match truthyModulePath sourceBundle moduleName with
      | some modulePath =>
        if getTargetBundleType cleanName = "vendor" then
          (mapSet acc.1 moduleName modulePath, acc.2)
        else
          (acc.1, mapSet acc.2 moduleName modulePath)
      | none => acc
    | none => acc
  else acc

/-- STEP 2 of the classifier: fold the routing over the discovery order,
producing the vendor and common module maps. -/
def routeModules (overrides : List String) (bundles : List BundleSpec) :
    List (String × String) × List (String × String) :=
  (discoveryOrder bundles).foldl (routeModule overrides bundles) ([], [])

/-- Models the default export of `lib/generate/extractCommonBundle.js`:
classify the page bundles, remove every promoted module from every page
bundle (STEP 3) and return the vendor bundle, the common bundle, then the
cleaned page bundles (STEP 4). -/
def classify (overrides : List String) (bundles : List BundleSpec) : List BundleSpec :=
  let vm := (routeModules overrides bundles).1
  let cm := (routeModules overrides bundles).2
  let keysToRemove := vm.map Prod.fst ++ cm.map Prod.fst
  let cleaned := bundles.map (fun b =>
    ⟨b.name, b.modules.filter (fun kv => !(keysToRemove.contains kv.1))⟩)
  ⟨"vendor", vm⟩ :: ⟨"common", cm⟩ :: cleaned

/-! ## Configuration merger (`injectConfigIntoMain` in `lib/bundle.js`)

The merger works on raw file text; it is modelled on `List Char`. -/

/-- The fixed start sentinel. -/
def startMarker : List Char := "/* MAGEPACK START */".toList

/-- The fixed end sentinel. -/
def endMarker : List Char := "/* MAGEPACK END */".toList

/-- Index of the first occurrence of `pat` in a list, leftmost match of a
literal pattern. -/
def firstOccIdx (pat : List Char) : List Char → Option Nat
  | [] => if pat.isEmpty then some 0 else none
  | c :: rest =>
    if pat.isPrefixOf (c :: rest) then some 0
    else (firstOccIdx pat rest).map (· + 1)

/-- One global-replace pass of the marker-stripping regex
`new RegExp('\\n?' + start + '[\\s\\S]*?' + end, 'g')` with the empty
replacement: repeatedly find the leftmost start sentinel (grabbing one
immediately preceding newline, the `\n?` part), the nearest end sentinel
after it (the lazy `[\s\S]*?` part), delete the span and continue after it.
The fuel argument only bounds the recursion; every step consumes at least
the two sentinels, so fuel equal to the text length always suffices. -/
def stripGo : Nat → List Char → List Char
  | 0, s => s
  | fuel + 1, s =>
    match firstOccIdx startMarker s with
    | none => s
    | some i =>
      match firstOccIdx endMarker (s.drop (i + startMarker.length)) with
      | none => s
      | some k =>
        let b := if 0 < i ∧ s.get? (i - 1) = some '\n' then i - 1 else i
        s.take b ++ stripGo fuel (s.drop (i + startMarker.length + k + endMarker.length))

/-- Models `mainConfig.replace(cleanRegex, '')`. -/
def stripMarkers (s : List Char) : List Char := stripGo s.length s

/-- Whitespace as removed by `String.prototype.trim` (ASCII range; the
configuration files at hand are ASCII). -/
def isJsSpace (c : Char) : Bool :=
  c == ' ' || c == '\t' || c == '\n' || c == '\r' || c == '\x0B' || c == '\x0C'

/-- Models `String.prototype.trim`. -/
def trimWS (s : List Char) : List Char :=
  ((s.dropWhile isJsSpace).reverse.dropWhile isJsSpace).reverse

/-- Models the injected block
`` `\n${startMarker}\n${newConfigContent}\n${endMarker}` ``. -/
def injectionOf (f : List Char) : List Char :=
  '\n' :: (startMarker ++ '\n' :: (f ++ '\n' :: endMarker))

/-- Models one `injectConfigIntoMain` content transformation
(`lib/bundle.js`): strip prior marker spans, trim, terminate with a
semicolon and a newline, append the fresh injection block:
`` `${mainConfig.trim()};\n${injection}` ``. -/
def mergeConfig (c f : List Char) : List Char :=
  trimWS (stripMarkers c) ++ ';' :: '\n' :: injectionOf f

/-- Number of occurrences of a nonempty pattern in a list (every start
position at which the pattern is a prefix of the remaining text). -/
def countOcc (pat : List Char) : List Char → Nat
  | [] => 0
  | c :: rest => (if pat.isPrefixOf (c :: rest) then 1 else 0) + countOcc pat rest

/-- The marker region of a file: the span from the first start sentinel
through the nearest end sentinel after it, if both exist. -/
def markerRegion (s : List Char) : Option (List Char) :=
  match firstOccIdx startMarker s with
  | none => none
  | some i =>
    match firstOccIdx endMarker (s.drop (i + startMarker.length)) with
    | none => none
    | some k => some ((s.drop i).take (startMarker.length + k + endMarker.length))

/-! ## Anonymous-AMD rewriter (`wrapAnonymousAmd`) -/

/-- A single-quote character, written by code point to keep source literals
plain. -/
def sq : String := String.mk [Char.ofNat 39]

/-- The facts the acorn walk extracts about the first `define` call
expression that has arguments: the source offset of its first argument
(`args[0].start`) and whether that argument is a string literal. -/
structure DefineCallInfo where
  firstArgStart : Nat
  firstArgIsStringLiteral : Bool
deriving DecidableEq

/-- Models `magicString.appendLeft(idx, ins)` followed by `toString()`:
insert `ins` at offset `idx`, leaving every other byte unchanged. -/
def appendLeftAt (content : String) (idx : Nat) (ins : String) : String :=
  String.mk (content.toList.take idx ++ ins.toList ++ content.toList.drop idx)

/-- Models `wrapAnonymousAmd`: the external acorn parse and walk are the
`parse` oracle; `none` covers both an unparseable source (`parseAst`
returning null) and a source without a `define` call carrying arguments, in
which cases the contents are returned unmodified.  For an anonymous
definition the logicalId is inserted as a new leading single-quoted string
argument at the exact offset of the original first argument
(`magicString.appendLeft(args[0].start, `'${moduleName}', `)`). -/
def wrapAnonymousAmd (parse : String → Option DefineCallInfo)
    (moduleName moduleContents : String) : String :=
  match parse moduleContents with
  | none => moduleContents
  | some info =>
    if info.firstArgIsStringLiteral then moduleContents
    else appendLeftAt moduleContents info.firstArgStart (sq ++ moduleName ++ sq ++ ", ")

/-! ## Minification auto-detection (`lib/bundle/checkMinifyOn.js`) -/

/-- A JavaScript value passed as the first argument of `path.join`: the
call sites pass either a string or an array of strings. -/
inductive JsPathArg where
  | str : String → JsPathArg
  | arr : List String → JsPathArg
deriving DecidableEq

/-- Models Node `path.join(first, seg)`: every argument is validated to be a
string and a non-string argument throws `TypeError [ERR_INVALID_ARG_TYPE]`;
for strings the segments are joined (normalization is irrelevant for the
paths at hand). -/
def pathJoinValidated (a : JsPathArg) (seg : String) : Except String String :=
  match a with
  | JsPathArg.str s => Except.ok (s ++ "/" ++ seg)
  | JsPathArg.arr _ =>
    Except.error "TypeError: The path argument must be of type string. Received an instance of Array"

/-- The `FILES.REQUIREJS_CONFIG_MIN` constant from `lib/utils/constants.js`. -/
def REQUIREJS_CONFIG_MIN : String := "requirejs-config.min.js"

/-- Models `checkMinifyOn` from `lib/bundle/checkMinifyOn.js` applied to the
argument a caller actually passes:
`fs.existsSync(path.join(localePath, FILES.REQUIREJS_CONFIG_MIN))`,
where `fe` is the `fs.existsSync` oracle and the `Except` layer carries a
`path.join` type error. -/
def checkMinifyOn (fe : String → Bool) (arg : JsPathArg) : Except String Bool :=
  (pathJoinValidated arg REQUIREJS_CONFIG_MIN).map fe

/-- Models the orchestrator call sites (`processLocale` in `lib/bundle.js`):
`const detectedMinification = checkMinifyOn([localePath]);` — the locale
path is wrapped in an array. -/
def orchestratorDetectMinification (fe : String → Bool) (localePath : String) :
    Except String Bool :=
  checkMinifyOn fe (JsPathArg.arr [localePath])

/-! ## Derived views of the classifier used in theorem statements -/

/-- Key membership in an ordered module map. -/
def hasKey (l : List (String × String)) (m : String) : Bool :=
  l.any (fun kv => kv.1 == m)

/-- The module path an extracted module carries into its target map, when the
module is extracted at all: the extraction decision must hold and a source
bundle with a truthy path must exist. -/
def extractionPath (overrides : List String) (bundles : List BundleSpec)
    (m : String) : Option String :=
  if extractionDecision overrides bundles m then
    match findSourceBundle bundles m with
    | some sb => truthyModulePath sb m
    | none => none
  else none

/-- The entry the routing step adds to the vendor map for module `m`, if any. -/
def vendorEntryOf (overrides : List String) (bundles : List BundleSpec)
    (m : String) : Option (String × String) :=
  match extractionPath overrides bundles m with
  | some p =>
    if getTargetBundleType (cleanModuleName m) = "vendor" then some (m, p) else none
  | none => none

/-- The entry the routing step adds to the common map for module `m`, if any. -/
def commonEntryOf (overrides : List String) (bundles : List BundleSpec)
    (m : String) : Option (String × String) :=
  match extractionPath overrides bundles m with
  | some p =>
    if getTargetBundleType (cleanModuleName m) = "vendor" then none else some (m, p)
  | none => none

/-- The vendor module map produced by classification. -/
def vendorModulesOf (overrides : List String) (bundles : List BundleSpec) :
    List (String × String) :=
  (routeModules overrides bundles).1

/-- The common module map produced by classification. -/
def commonModulesOf (overrides : List String) (bundles : List BundleSpec) :
    List (String × String) :=
  (routeModules overrides bundles).2

/-- The `keysToRemove` list of STEP 3. -/
def promotedKeys (overrides : List String) (bundles : List BundleSpec) : List String :=
  (vendorModulesOf overrides bundles).map Prod.fst ++
  (commonModulesOf overrides bundles).map Prod.fst

/-- The cleaned page bundles returned after the vendor and common bundles. -/
def pageBundlesOf (overrides : List String) (bundles : List BundleSpec) :
    List BundleSpec :=
  bundles.map (fun b =>
    ⟨b.name, b.modules.filter (fun kv => !((promotedKeys overrides bundles).contains kv.1))⟩)

/-- Success of resolution and read for one module entry, the condition under
which the collection loop of `processBundle` keeps the module. -/
def moduleResolves (fe : String → Bool) (fread : String → Option String)
    (rmap : String → String) (localePath : String) (isMinifyOn : Bool)
    (kv : String × String) : Bool :=
  match resolveFile fe localePath kv.1 (rmap kv.2) isMinifyOn with
  | Except.ok p => (fread p).isSome
  | Except.error _ => false

/-! ## Concrete inputs used by counterexamples and witnesses -/

/-- Two page bundles sharing one module; usage count 2 stays below the
sharing threshold 3. -/
def cxExclBundles : List BundleSpec :=
  [⟨"p1", [("a", "a.js")]⟩, ⟨"p2", [("a", "a.js")]⟩]

/-- Two page bundles whose shared module is discovered first through the
first bundle, while the second bundle lists it after a fresh module. -/
def cxOrderBundles : List BundleSpec :=
  [⟨"p1", [("b", "b.js")]⟩, ⟨"p2", [("a", "a.js"), ("b", "b.js")]⟩]

/-- The second page bundle of `cxOrderBundles` after classification. -/
def cxOrderPage : BundleSpec := ((classify [] cxOrderBundles).drop 2).getD 1 ⟨"", []⟩

/-- A page-bundle list containing a single-use infrastructure module,
used to witness the classifier theorems. -/
def wInfraBundles : List BundleSpec :=
  [⟨"p1", [("underscore", "underscore.js")]⟩, ⟨"p2", [("x", "x.js")]⟩]

/-- Scenario D source text: an anonymous AMD definition. -/
def scenarioDSource : String := "define([\x27a\x27], function(a)\x7b...\x7d)"

/-- Parse oracle for Scenario D: the first argument of the `define` call
starts at offset 7 (right after the opening parenthesis) and is not a
string literal. -/
def scenarioDParse : String → Option DefineCallInfo :=
  fun s => if s = scenarioDSource then some ⟨7, false⟩ else none

/-- A configuration file content consisting of a lone, unterminated start
sentinel followed by code. -/
def cxMergeStray : List Char := "/* MAGEPACK START */x".toList

/-- A second unterminated-sentinel file content, for the merge output
equation counterexample. -/
def cxMergeStray2 : List Char := "/* MAGEPACK START */z".toList


/-! # Theorems -/
/-! ## C4 -/

/-- C4 (amended): in the current processor (`lib/bundle/processor.js`), a
bundle whose module-name list contains a sensitive-vendor match is minified
with the "safe" strategy for every requested strategy; the requested
"aggressive" strategy is never applied there.  (The legacy `processBundle`
in `lib/bundle.js` has no such override, see the counterexample.) -/
theorem c4_sensitive_forces_safe (o : ProcOptions) (moduleNames : List String)
    (h : hasSensitiveModules moduleNames = true) :
    effectiveStrategy o moduleNames = "safe" ∧
    effectiveStrategy o moduleNames ≠ "aggressive" := by
  unfold effectiveStrategy
  rw [h]
  refine ⟨rfl, ?_⟩
  intro hc
  simp at hc

/-- Witness for the C4 theorem at a concrete sensitive bundle. -/
theorem c4_sensitive_forces_safe_witness :
    hasSensitiveModules ["checkout/paypal-button", "jquery"] = true ∧
    (effectiveStrategy ⟨false, some "aggressive", false⟩ ["checkout/paypal-button", "jquery"] = "safe" ∧
     effectiveStrategy ⟨false, some "aggressive", false⟩ ["checkout/paypal-button", "jquery"] ≠ "aggressive") :=
  ⟨by decide, c4_sensitive_forces_safe ⟨false, some "aggressive", false⟩ _ (by decide)⟩

/-- C4 counterexample: the strategy selection of the legacy `processBundle`
in `lib/bundle.js` ignores module names, so a bundle containing a
paypal-matching module is minified with the requested "aggressive"
strategy, contradicting the claim as stated. -/
theorem c4_legacy_counterexample :
    hasSensitiveModules ["checkout/paypal-button"] = true ∧
    libProcessBundleStrategy ⟨false, some "aggressive", false⟩ = "aggressive" := by
  constructor
  · decide
  · rfl

/-! ## C9 -/

/-- C9: the orchestrators call `checkMinifyOn([localePath])` with an array
argument, so `path.join` throws a TypeError for every locale the
orchestrator processes — the detection never returns normally, while called
with a string (as `checkMinifyOn`'s own JSDoc requires) it would return the
existence of `requirejs-config.min.js` at the locale root.  This mismatch
between the function's documented contract and its call sites is a bug in
the code. -/
theorem c9_detection (fe : String → Bool) (localePath : String) :
    orchestratorDetectMinification fe localePath =
      Except.error "TypeError: The path argument must be of type string. Received an instance of Array" ∧
    checkMinifyOn fe (JsPathArg.str localePath) =
      Except.ok (fe (localePath ++ "/" ++ REQUIREJS_CONFIG_MIN)) :=
  ⟨rfl, rfl⟩

/-! ## C6 -/

/-- C6: for every bundle with at least one collected module, when the terser
invocation rejects, `processBundle` writes the bundle file with exactly the
newline-joined concatenation of the wrapped module sources and still
produces the gzip and brotli siblings; no source map is written and the
(total) operation completes normally. -/
theorem c6_crash_fallback (o : ProcOptions) (b : BundleSpec) (fe : String → Bool)
    (fread : String → Option String) (rmap : String → String)
    (wrap : String → String → String → String) (gz br : String → String)
    (localePath : String) (isMinifyOn : Bool)
    (h : 0 < (collectSources fe fread rmap wrap localePath isMinifyOn b.modules).length) :
    processBundleWrites o b fe fread rmap wrap gz br localePath isMinifyOn TerserOutcome.crash =
      [(destPathOf localePath b isMinifyOn,
        joinNL ((collectSources fe fread rmap wrap localePath isMinifyOn b.modules).map Prod.snd)),
       (destPathOf localePath b isMinifyOn ++ ".gz",
        gz (joinNL ((collectSources fe fread rmap wrap localePath isMinifyOn b.modules).map Prod.snd))),
       (destPathOf localePath b isMinifyOn ++ ".br",
        br (joinNL ((collectSources fe fread rmap wrap localePath isMinifyOn b.modules).map Prod.snd)))] := by
  unfold processBundleWrites processorFinalContent
  rw [if_neg (by omega)]
  simp only []
  split <;> simp

/-! ## C7 -/

/-- C7: a bundle with zero successfully collected sources produces no write
at all — no bundle file, no map, no gzip or brotli sibling — and the
remaining bundles of the locale are processed exactly as if the empty
bundle were absent. -/
theorem c7_empty_bundle_skipped (o : ProcOptions) (b : BundleSpec)
    (rest : List BundleSpec) (fe : String → Bool)
    (fread : String → Option String) (rmap : String → String)
    (wrap : String → String → String → String) (gz br : String → String)
    (localePath : String) (isMinifyOn : Bool) (outcome : TerserOutcome)
    (h : collectSources fe fread rmap wrap localePath isMinifyOn b.modules = []) :
    processBundleWrites o b fe fread rmap wrap gz br localePath isMinifyOn outcome = [] ∧
    processLocaleWrites o (b :: rest) fe fread rmap wrap gz br localePath isMinifyOn outcome =
      processLocaleWrites o rest fe fread rmap wrap gz br localePath isMinifyOn outcome := by
  have hw : processBundleWrites o b fe fread rmap wrap gz br localePath isMinifyOn outcome = [] := by
    unfold processBundleWrites
    rw [h]
    rfl
  refine ⟨hw, ?_⟩
  unfold processLocaleWrites
  simp [hw]

/-- Witness for the C6 theorem at concrete inputs. -/
theorem c6_crash_fallback_witness :
    0 < (collectSources (fun _ => true) (fun _ => some "SRC") (fun p => p)
          (fun _ c _ => c) "L" false [("m", "m.js")]).length ∧
    processBundleWrites ⟨true, none, false⟩ ⟨"v", [("m", "m.js")]⟩ (fun _ => true)
        (fun _ => some "SRC") (fun p => p) (fun _ c _ => c) (fun s => s) (fun s => s)
        "L" false TerserOutcome.crash =
      [(destPathOf "L" ⟨"v", [("m", "m.js")]⟩ false,
        joinNL ((collectSources (fun _ => true) (fun _ => some "SRC") (fun p => p)
          (fun _ c _ => c) "L" false (BundleSpec.mk "v" [("m", "m.js")]).modules).map Prod.snd)),
       (destPathOf "L" ⟨"v", [("m", "m.js")]⟩ false ++ ".gz",
        (fun s => s) (joinNL ((collectSources (fun _ => true) (fun _ => some "SRC") (fun p => p)
          (fun _ c _ => c) "L" false (BundleSpec.mk "v" [("m", "m.js")]).modules).map Prod.snd))),
       (destPathOf "L" ⟨"v", [("m", "m.js")]⟩ false ++ ".br",
        (fun s => s) (joinNL ((collectSources (fun _ => true) (fun _ => some "SRC") (fun p => p)
          (fun _ c _ => c) "L" false (BundleSpec.mk "v" [("m", "m.js")]).modules).map Prod.snd)))] :=
  ⟨by decide,
   c6_crash_fallback ⟨true, none, false⟩ ⟨"v", [("m", "m.js")]⟩ (fun _ => true)
     (fun _ => some "SRC") (fun p => p) (fun _ c _ => c) (fun s => s) (fun s => s)
     "L" false (by decide)⟩

/-- Witness for the C7 theorem at concrete inputs. -/
theorem c7_empty_bundle_skipped_witness :
    collectSources (fun _ => false) (fun _ => some "SRC") (fun p => p)
        (fun _ c _ => c) "L" false (BundleSpec.mk "v" [("m", "m.js")]).modules = [] ∧
    (processBundleWrites ⟨false, none, false⟩ ⟨"v", [("m", "m.js")]⟩ (fun _ => false)
        (fun _ => some "SRC") (fun p => p) (fun _ c _ => c) (fun s => s) (fun s => s)
        "L" false TerserOutcome.crash = [] ∧
     processLocaleWrites ⟨false, none, false⟩ [⟨"v", [("m", "m.js")]⟩, ⟨"w", [("x", "x.js")]⟩]
        (fun _ => false) (fun _ => some "SRC") (fun p => p) (fun _ c _ => c)
        (fun s => s) (fun s => s) "L" false TerserOutcome.crash =
      processLocaleWrites ⟨false, none, false⟩ [⟨"w", [("x", "x.js")]⟩]
        (fun _ => false) (fun _ => some "SRC") (fun p => p) (fun _ c _ => c)
        (fun s => s) (fun s => s) "L" false TerserOutcome.crash) :=
  ⟨by decide,
   c7_empty_bundle_skipped ⟨false, none, false⟩ ⟨"v", [("m", "m.js")]⟩
     [⟨"w", [("x", "x.js")]⟩] (fun _ => false) (fun _ => some "SRC") (fun p => p)
     (fun _ c _ => c) (fun s => s) (fun s => s) "L" false TerserOutcome.crash (by decide)⟩

/-! ## C8 -/

/-- C8: for a source whose first located `define` call has a non-string
first argument at offset `firstArgStart`, the transform inserts exactly the
single-quoted logicalId plus a comma and space at that offset: the output
is the prefix, the inserted argument, then the untouched remainder, so
every other byte of the source is unchanged and the length grows by the
insertion length. -/
theorem c8_anonymous_rewrite (parse : String → Option DefineCallInfo)
    (moduleName moduleContents : String) (info : DefineCallInfo)
    (hp : parse moduleContents = some info)
    (hanon : info.firstArgIsStringLiteral = false)
    (hlt : info.firstArgStart ≤ moduleContents.length) :
    (wrapAnonymousAmd parse moduleName moduleContents).toList =
      moduleContents.toList.take info.firstArgStart ++
      (sq ++ moduleName ++ sq ++ ", ").toList ++
      moduleContents.toList.drop info.firstArgStart ∧
    (wrapAnonymousAmd parse moduleName moduleContents).toList.take info.firstArgStart =
      moduleContents.toList.take info.firstArgStart ∧
    (wrapAnonymousAmd parse moduleName moduleContents).toList.drop
        (info.firstArgStart + (moduleName.length + 4)) =
      moduleContents.toList.drop info.firstArgStart ∧
    (wrapAnonymousAmd parse moduleName moduleContents).length =
      moduleContents.length + (moduleName.length + 4) := by
  have hout : wrapAnonymousAmd parse moduleName moduleContents =
      appendLeftAt moduleContents info.firstArgStart (sq ++ moduleName ++ sq ++ ", ") := by
    unfold wrapAnonymousAmd
    rw [hp]
    simp [hanon]
  have hins : (sq ++ moduleName ++ sq ++ ", ").toList.length = moduleName.length + 4 := by
    have h0 : (sq ++ moduleName ++ sq ++ ", ").toList.length =
        (sq ++ moduleName ++ sq ++ ", ").length := rfl
    have h1 : sq.length = 1 := rfl
    have h2 : (", " : String).length = 2 := rfl
    rw [h0]
    simp [String.length_append, h1, h2]
    omega
  have htk : (moduleContents.toList.take info.firstArgStart).length = info.firstArgStart := by
    simp [List.length_take]
    exact hlt
  have hlist : (wrapAnonymousAmd parse moduleName moduleContents).toList =
      moduleContents.toList.take info.firstArgStart ++
      (sq ++ moduleName ++ sq ++ ", ").toList ++
      moduleContents.toList.drop info.firstArgStart := by
    rw [hout]
    rfl
  refine ⟨hlist, ?_, ?_, ?_⟩
  · rw [hlist, List.append_assoc]
    rw [List.take_left' htk]
  · rw [hlist, List.append_assoc]
    have hlen2 : (moduleContents.toList.take info.firstArgStart ++
        (sq ++ moduleName ++ sq ++ ", ").toList).length =
        info.firstArgStart + (moduleName.length + 4) := by
      rw [List.length_append, htk, hins]
    rw [← List.append_assoc]
    rw [List.drop_left' hlen2]
  · have hl : (wrapAnonymousAmd parse moduleName moduleContents).length =
        (wrapAnonymousAmd parse moduleName moduleContents).toList.length := rfl
    rw [hl, hlist]
    rw [List.length_append, List.length_append, htk, hins, List.length_drop]
    have hml : moduleContents.toList.length = moduleContents.length := rfl
    rw [hml]
    omega

/-- Witness for the C8 theorem: Scenario D, rewriting an anonymous
definition into a named one with all other bytes unchanged. -/
theorem c8_anonymous_rewrite_witness :
    scenarioDParse scenarioDSource = some ⟨7, false⟩ ∧
    (DefineCallInfo.mk 7 false).firstArgIsStringLiteral = false ∧
    (DefineCallInfo.mk 7 false).firstArgStart ≤ scenarioDSource.length ∧
    ((wrapAnonymousAmd scenarioDParse "My/Module" scenarioDSource).toList =
      scenarioDSource.toList.take 7 ++ (sq ++ "My/Module" ++ sq ++ ", ").toList ++
      scenarioDSource.toList.drop 7 ∧
     (wrapAnonymousAmd scenarioDParse "My/Module" scenarioDSource).toList.take 7 =
      scenarioDSource.toList.take 7 ∧
     (wrapAnonymousAmd scenarioDParse "My/Module" scenarioDSource).toList.drop
        (7 + ("My/Module".length + 4)) = scenarioDSource.toList.drop 7 ∧
     (wrapAnonymousAmd scenarioDParse "My/Module" scenarioDSource).length =
      scenarioDSource.length + ("My/Module".length + 4)) ∧
    wrapAnonymousAmd scenarioDParse "My/Module" scenarioDSource =
      "define(\x27My/Module\x27, [\x27a\x27], function(a)\x7b...\x7d)" :=
  ⟨by decide, rfl, by decide,
   c8_anonymous_rewrite scenarioDParse "My/Module" scenarioDSource ⟨7, false⟩
     (by decide) rfl (by decide),
   by decide⟩

/-! ## Classifier helper lemmas -/

theorem mapSet_append (m : List (String × String)) (k v : String)
    (h : hasKey m k = false) : mapSet m k v = m ++ [(k, v)] := by
  unfold mapSet
  unfold hasKey at h
  rw [if_neg (by simp [h])]

theorem vendorEntryOf_key (ov : List String) (bs : List BundleSpec) (m : String)
    (e : String × String) (h : vendorEntryOf ov bs m = some e) : e.1 = m := by
  unfold vendorEntryOf at h
  rcases hp : extractionPath ov bs m with _ | p
  · rw [hp] at h; simp at h
  · rw [hp] at h
    by_cases ht : getTargetBundleType (cleanModuleName m) = "vendor"
    · simp [ht] at h
      simp [← h]
    · simp [ht] at h

theorem commonEntryOf_key (ov : List String) (bs : List BundleSpec) (m : String)
    (e : String × String) (h : commonEntryOf ov bs m = some e) : e.1 = m := by
  unfold commonEntryOf at h
  rcases hp : extractionPath ov bs m with _ | p
  · rw [hp] at h; simp at h
  · rw [hp] at h
    by_cases ht : getTargetBundleType (cleanModuleName m) = "vendor"
    · simp [ht] at h
    · simp [ht] at h
      simp [← h]

theorem vendorEntryOf_target (ov : List String) (bs : List BundleSpec) (m : String)
    (e : String × String) (h : vendorEntryOf ov bs m = some e) :
    getTargetBundleType (cleanModuleName m) = "vendor" := by
  unfold vendorEntryOf at h
  rcases hp : extractionPath ov bs m with _ | p
  · rw [hp] at h; simp at h
  · rw [hp] at h
    by_cases ht : getTargetBundleType (cleanModuleName m) = "vendor"
    · exact ht
    · simp [ht] at h

theorem commonEntryOf_target (ov : List String) (bs : List BundleSpec) (m : String)
    (e : String × String) (h : commonEntryOf ov bs m = some e) :
    ¬ getTargetBundleType (cleanModuleName m) = "vendor" := by
  unfold commonEntryOf at h
  rcases hp : extractionPath ov bs m with _ | p
  · rw [hp] at h; simp at h
  · rw [hp] at h
    by_cases ht : getTargetBundleType (cleanModuleName m) = "vendor"
    · simp [ht] at h
    · exact ht

theorem routeModule_eq (ov : List String) (bs : List BundleSpec)
    (vm cm : List (String × String)) (m : String) :
    routeModule ov bs (vm, cm) m =
      ((match vendorEntryOf ov bs m with
        | some e => mapSet vm e.1 e.2
        | none => vm),
       (match commonEntryOf ov bs m with
        | some e => mapSet cm e.1 e.2
        | none => cm)) := by
  unfold routeModule vendorEntryOf commonEntryOf extractionPath
  by_cases hd : extractionDecision ov bs m = true
  · cases hsb : findSourceBundle bs m with
    | none => simp [hd]
    | some sb =>
      cases htp : truthyModulePath sb m with
      | none => simp [hd, htp]
      | some p =>
        by_cases ht : getTargetBundleType (cleanModuleName m) = "vendor"
        · simp [hd, htp, ht]
        · simp [hd, htp, ht]
  · simp [hd]

theorem pushUnique_nodup (acc : List String) (k : String) (h : acc.Nodup) :
    (if acc.contains k then acc else acc ++ [k]).Nodup := by
  by_cases hc : acc.contains k
  · rw [if_pos hc]
    exact h
  · rw [if_neg hc, List.nodup_append]
    refine ⟨h, List.nodup_singleton _, ?_⟩
    intro x hx hax
    rw [List.mem_singleton] at hax
    subst hax
    exact hc (List.elem_iff.mpr hx)

theorem discoveryOrder_inner_nodup (L : List (String × String)) (acc : List String)
    (h : acc.Nodup) :
    (L.foldl (fun a kv => if a.contains kv.1 then a else a ++ [kv.1]) acc).Nodup := by
  induction L generalizing acc with
  | nil => exact h
  | cons kv t ih =>
    simp only [List.foldl_cons]
    exact ih _ (pushUnique_nodup acc kv.1 h)

theorem discoveryOrder_outer_nodup (bs : List BundleSpec) (acc : List String)
    (h : acc.Nodup) :
    (bs.foldl (fun acc b =>
      b.modules.foldl (fun a kv => if a.contains kv.1 then a else a ++ [kv.1]) acc) acc).Nodup := by
  induction bs generalizing acc with
  | nil => exact h
  | cons b t ih =>
    simp only [List.foldl_cons]
    exact ih _ (discoveryOrder_inner_nodup b.modules acc h)

theorem discoveryOrder_nodup (bs : List BundleSpec) : (discoveryOrder bs).Nodup := by
  unfold discoveryOrder
  exact discoveryOrder_outer_nodup bs [] List.nodup_nil

theorem hasKey_append_single (vm : List (String × String)) (e : String × String)
    (m' : String) (h1 : hasKey vm m' = false) (h2 : (e.1 == m') = false) :
    hasKey (vm ++ [e]) m' = false := by
  unfold hasKey at h1 ⊢
  rw [List.any_append, h1]
  simp [h2]

theorem routeModules_fold (ov : List String) (bs : List BundleSpec) :
    ∀ (L : List String) (vm cm : List (String × String)),
      L.Nodup →
      (∀ m ∈ L, hasKey vm m = false) →
      (∀ m ∈ L, hasKey cm m = false) →
      L.foldl (routeModule ov bs) (vm, cm) =
        (vm ++ L.filterMap (vendorEntryOf ov bs), cm ++ L.filterMap (commonEntryOf ov bs)) := by
  intro L
  induction L with
  | nil =>
    intro vm cm _ _ _
    simp
  | cons m t ih =>
    intro vm cm hnd hvm hcm
    have hmvm : hasKey vm m = false := hvm m (List.mem_cons_self m t)
    have hmcm : hasKey cm m = false := hcm m (List.mem_cons_self m t)
    have hnd' : t.Nodup := (List.nodup_cons.mp hnd).2
    have hmt : m ∉ t := (List.nodup_cons.mp hnd).1
    simp only [List.foldl_cons, List.filterMap_cons]
    rw [routeModule_eq]
    cases hv : vendorEntryOf ov bs m with
    | some e =>
      have he1 : e.1 = m := vendorEntryOf_key ov bs m e hv
      have hcnone : commonEntryOf ov bs m = none := by
        cases hc : commonEntryOf ov bs m with
        | none => rfl
        | some f =>
          exact absurd (vendorEntryOf_target ov bs m e hv) (commonEntryOf_target ov bs m f hc)
      simp only [hv, hcnone]
      have hms : mapSet vm e.1 e.2 = vm ++ [e] := by
        rw [mapSet_append vm e.1 e.2 (by rw [he1]; exact hmvm)]
      rw [hms]
      rw [ih (vm ++ [e]) cm hnd'
        (fun m' hm' => hasKey_append_single vm e m'
          (hvm m' (List.mem_cons_of_mem _ hm'))
          (by rw [he1]; exact beq_eq_false_iff_ne.mpr (fun he => hmt (he ▸ hm'))))
        (fun m' hm' => hcm m' (List.mem_cons_of_mem _ hm'))]
      rw [List.append_assoc, List.singleton_append]
    | none =>
      cases hc : commonEntryOf ov bs m with
      | some e =>
        have he1 : e.1 = m := commonEntryOf_key ov bs m e hc
        simp only [hv, hc]
        have hms : mapSet cm e.1 e.2 = cm ++ [e] := by
          rw [mapSet_append cm e.1 e.2 (by rw [he1]; exact hmcm)]
        rw [hms]
        rw [ih vm (cm ++ [e]) hnd'
          (fun m' hm' => hvm m' (List.mem_cons_of_mem _ hm'))
          (fun m' hm' => hasKey_append_single cm e m'
            (hcm m' (List.mem_cons_of_mem _ hm'))
            (by rw [he1]; exact beq_eq_false_iff_ne.mpr (fun he => hmt (he ▸ hm'))))]
        rw [List.append_assoc, List.singleton_append]
      | none =>
        simp only [hv, hc]
        exact ih vm cm hnd'
          (fun m' hm' => hvm m' (List.mem_cons_of_mem _ hm'))
          (fun m' hm' => hcm m' (List.mem_cons_of_mem _ hm'))

theorem routeModules_eq (ov : List String) (bs : List BundleSpec) :
    routeModules ov bs =
      ((discoveryOrder bs).filterMap (vendorEntryOf ov bs),
       (discoveryOrder bs).filterMap (commonEntryOf ov bs)) := by
  unfold routeModules
  have := routeModules_fold ov bs (discoveryOrder bs) [] [] (discoveryOrder_nodup bs)
    (fun _ _ => rfl) (fun _ _ => rfl)
  simpa using this

theorem hasKey_iff (l : List (String × String)) (m : String) :
    hasKey l m = true ↔ ∃ kv ∈ l, kv.1 = m := by
  simp [hasKey, List.any_eq_true, beq_iff_eq]

theorem hasKey_filterMap_entry (f : String → Option (String × String))
    (hf : ∀ a e, f a = some e → e.1 = a) (L : List String) (n : String) :
    hasKey (L.filterMap f) n = true ↔ n ∈ L ∧ (f n).isSome = true := by
  rw [hasKey_iff]
  constructor
  · rintro ⟨kv, hkv, hk⟩
    obtain ⟨a, ha, hfa⟩ := List.mem_filterMap.mp hkv
    have hka : kv.1 = a := hf a kv hfa
    rw [hka] at hk
    subst hk
    exact ⟨ha, by rw [hfa]; rfl⟩
  · rintro ⟨hn, hsome⟩
    obtain ⟨e, he⟩ := Option.isSome_iff_exists.mp hsome
    exact ⟨e, List.mem_filterMap.mpr ⟨n, hn, he⟩, hf n e he⟩

theorem vendor_hasKey_entry (ov : List String) (bs : List BundleSpec) (m : String)
    (h : hasKey (vendorModulesOf ov bs) m = true) :
    (vendorEntryOf ov bs m).isSome = true := by
  rw [vendorModulesOf, routeModules_eq] at h
  exact ((hasKey_filterMap_entry _ (fun a e he => vendorEntryOf_key ov bs a e he) _ _).mp h).2

theorem common_hasKey_entry (ov : List String) (bs : List BundleSpec) (m : String)
    (h : hasKey (commonModulesOf ov bs) m = true) :
    (commonEntryOf ov bs m).isSome = true := by
  rw [commonModulesOf, routeModules_eq] at h
  exact ((hasKey_filterMap_entry _ (fun a e he => commonEntryOf_key ov bs a e he) _ _).mp h).2

/-- C1 (amended): after classification, the vendor and common maps are
key-disjoint, and every promoted logicalId is removed from every page
bundle; a non-promoted module shared by several page bundles may remain in
several of them. -/
theorem c1_exclusivity_amended (ov : List String) (bs : List BundleSpec) (m : String) :
    classify ov bs =
      ⟨"vendor", vendorModulesOf ov bs⟩ :: ⟨"common", commonModulesOf ov bs⟩ ::
        pageBundlesOf ov bs ∧
    (hasKey (vendorModulesOf ov bs) m = true →
      hasKey (commonModulesOf ov bs) m = false) ∧
    ((hasKey (vendorModulesOf ov bs) m = true ∨
      hasKey (commonModulesOf ov bs) m = true) →
      ∀ b ∈ pageBundlesOf ov bs, hasKey b.modules m = false) := by
  refine ⟨rfl, ?_, ?_⟩
  · intro hv
    rw [Bool.eq_false_iff]
    intro hc
    obtain ⟨e, he⟩ := Option.isSome_iff_exists.mp (vendor_hasKey_entry ov bs m hv)
    obtain ⟨f, hf⟩ := Option.isSome_iff_exists.mp (common_hasKey_entry ov bs m hc)
    exact absurd (vendorEntryOf_target ov bs m e he) (commonEntryOf_target ov bs m f hf)
  · intro hvc b hb
    rw [Bool.eq_false_iff]
    intro hbk
    obtain ⟨kv, hkv, hk⟩ := (hasKey_iff _ _).mp hbk
    obtain ⟨b0, _, hb0⟩ := List.mem_map.mp hb
    rw [← hb0] at hkv
    simp only [List.mem_filter] at hkv
    have hnc : ((promotedKeys ov bs).contains kv.1) = false := by
      rcases hkv with ⟨_, hcond⟩
      rw [Bool.not_eq_true'] at hcond
      exact hcond
    rw [hk] at hnc
    have hmem : m ∈ promotedKeys ov bs := by
      unfold promotedKeys
      rcases hvc with hv | hc
      · obtain ⟨kv', hkv', hk'⟩ := (hasKey_iff _ _).mp hv
        exact List.mem_append_left _ (List.mem_map.mpr ⟨kv', hkv', hk'⟩)
      · obtain ⟨kv', hkv', hk'⟩ := (hasKey_iff _ _).mp hc
        exact List.mem_append_right _ (List.mem_map.mpr ⟨kv', hkv', hk'⟩)
    rw [show (promotedKeys ov bs).contains m = true from List.elem_iff.mpr hmem] at hnc
    exact Bool.true_eq_false ▸ hnc ▸ rfl

/-- C1 counterexample: with two page bundles both containing module `a`
(usage count 2, below the sharing threshold 3, not critical, not
configured), `a` remains in two bundles of the classifier output, so it
does not occur in exactly one bundle. -/
theorem c1_exclusivity_counterexample :
    ¬ (((classify [] cxExclBundles).filter (fun b => hasKey b.modules "a")).length = 1) ∧
    ((classify [] cxExclBundles).filter (fun b => hasKey b.modules "a")).length = 2 := by
  constructor
  · decide
  · decide

/-- Witness for the amended C1 theorem at a concrete input: the single-use
infrastructure module `underscore` is promoted to vendor, absent from
common and removed from every page bundle. -/
theorem c1_exclusivity_amended_witness :
    hasKey (vendorModulesOf [] wInfraBundles) "underscore" = true ∧
    hasKey (commonModulesOf [] wInfraBundles) "underscore" = false ∧
    (∀ b ∈ pageBundlesOf [] wInfraBundles, hasKey b.modules "underscore" = false) :=
  ⟨by decide,
   (c1_exclusivity_amended [] wInfraBundles "underscore").2.1 (by decide),
   (c1_exclusivity_amended [] wInfraBundles "underscore").2.2 (Or.inl (by decide))⟩

theorem map_fst_filterMap_entry (f : String → Option (String × String))
    (hf : ∀ a e, f a = some e → e.1 = a) :
    ∀ L : List String,
      (L.filterMap f).map Prod.fst = L.filter (fun n => (f n).isSome) := by
  intro L
  induction L with
  | nil => rfl
  | cons a t ih =>
    cases hfa : f a with
    | none => simp [List.filterMap_cons, hfa, ih]
    | some e =>
      simp [List.filterMap_cons, hfa, ih, hf a e hfa]

theorem hasKey_vendor_eq_isSome (ov : List String) (bs : List BundleSpec)
    (n : String) (hn : n ∈ discoveryOrder bs) :
    hasKey (vendorModulesOf ov bs) n = (vendorEntryOf ov bs n).isSome := by
  rw [Bool.eq_iff_iff]
  rw [vendorModulesOf, routeModules_eq]
  simp only []
  rw [hasKey_filterMap_entry _ (fun a e he => vendorEntryOf_key ov bs a e he)]
  exact ⟨fun h => h.2, fun h => ⟨hn, h⟩⟩

theorem hasKey_common_eq_isSome (ov : List String) (bs : List BundleSpec)
    (n : String) (hn : n ∈ discoveryOrder bs) :
    hasKey (commonModulesOf ov bs) n = (commonEntryOf ov bs n).isSome := by
  rw [Bool.eq_iff_iff]
  rw [commonModulesOf, routeModules_eq]
  simp only []
  rw [hasKey_filterMap_entry _ (fun a e he => commonEntryOf_key ov bs a e he)]
  exact ⟨fun h => h.2, fun h => ⟨hn, h⟩⟩

theorem vendor_keys_order (ov : List String) (bs : List BundleSpec) :
    (vendorModulesOf ov bs).map Prod.fst =
      (discoveryOrder bs).filter (fun n => hasKey (vendorModulesOf ov bs) n) := by
  conv_lhs => rw [vendorModulesOf, routeModules_eq]
  simp only []
  rw [map_fst_filterMap_entry _ (fun a e he => vendorEntryOf_key ov bs a e he)]
  refine (List.filter_congr ?_).symm
  intro a ha
  exact hasKey_vendor_eq_isSome ov bs a ha

theorem common_keys_order (ov : List String) (bs : List BundleSpec) :
    (commonModulesOf ov bs).map Prod.fst =
      (discoveryOrder bs).filter (fun n => hasKey (commonModulesOf ov bs) n) := by
  conv_lhs => rw [commonModulesOf, routeModules_eq]
  simp only []
  rw [map_fst_filterMap_entry _ (fun a e he => commonEntryOf_key ov bs a e he)]
  refine (List.filter_congr ?_).symm
  intro a ha
  exact hasKey_common_eq_isSome ov bs a ha

theorem collectSources_acc (fe : String → Bool) (fread : String → Option String)
    (rmap : String → String) (wrap : String → String → String → String)
    (localePath : String) (isMinifyOn : Bool) :
    ∀ (modules : List (String × String)) (acc : List (String × String)),
      modules.foldl (fun acc kv =>
        match resolveFile fe localePath kv.1 (rmap kv.2) isMinifyOn with
        | Except.ok absPath =>
          match fread absPath with
          | some content => acc ++ [(kv.1, wrap kv.1 content absPath)]
          | none => acc
        | Except.error _ => acc) acc =
      acc ++ collectSources fe fread rmap wrap localePath isMinifyOn modules := by
  intro modules
  induction modules with
  | nil =>
    intro acc
    simp [collectSources]
  | cons kv t ih =>
    intro acc
    rw [collectSources]
    simp only [List.foldl_cons]
    rw [ih, ih]
    cases hr : resolveFile fe localePath kv.1 (rmap kv.2) isMinifyOn with
    | ok absPath =>
      cases hf : fread absPath with
      | some content => simp [hf]
      | none => simp [hf]
    | error e => simp

theorem collectSources_names_all_ok (fe : String → Bool) (fread : String → Option String)
    (rmap : String → String) (wrap : String → String → String → String)
    (localePath : String) (isMinifyOn : Bool) :
    ∀ modules : List (String × String),
      (∀ kv ∈ modules, moduleResolves fe fread rmap localePath isMinifyOn kv = true) →
      (collectSources fe fread rmap wrap localePath isMinifyOn modules).map Prod.fst =
        modules.map Prod.fst := by
  intro modules
  induction modules with
  | nil => intro _; rfl
  | cons kv t ih =>
    intro hall
    have hkv := hall kv (List.mem_cons_self kv t)
    unfold moduleResolves at hkv
    rw [collectSources]
    simp only [List.foldl_cons]
    rw [collectSources_acc]
    cases hr : resolveFile fe localePath kv.1 (rmap kv.2) isMinifyOn with
    | ok absPath =>
      rw [hr] at hkv
      simp only [] at hkv
      cases hf : fread absPath with
      | some content =>
        rw [List.map_append, ih (fun kv' hkv' => hall kv' (List.mem_cons_of_mem _ hkv'))]
        simp [hf]
      | none =>
        rw [hf] at hkv
        simp at hkv
    | error e =>
      rw [hr] at hkv
      simp at hkv

/-- C3 (amended): the compiled concatenation order of any fully-resolving
bundle equals its module-map insertion order; the vendor and common bundles
are ordered by the global first-seen discovery order restricted to their
members; each page bundle keeps its original insertion order with the
promoted modules removed.  (The global-first-seen restriction does not
describe page bundles, see the counterexample.) -/
theorem c3_order_amended (ov : List String) (bs : List BundleSpec)
    (fe : String → Bool) (fread : String → Option String) (rmap : String → String)
    (wrap : String → String → String → String) (localePath : String) (isMinifyOn : Bool)
    (b : BundleSpec)
    (hall : ∀ kv ∈ b.modules, moduleResolves fe fread rmap localePath isMinifyOn kv = true) :
    (collectSources fe fread rmap wrap localePath isMinifyOn b.modules).map Prod.fst =
      b.modules.map Prod.fst ∧
    (vendorModulesOf ov bs).map Prod.fst =
      (discoveryOrder bs).filter (fun n => hasKey (vendorModulesOf ov bs) n) ∧
    (commonModulesOf ov bs).map Prod.fst =
      (discoveryOrder bs).filter (fun n => hasKey (commonModulesOf ov bs) n) ∧
    pageBundlesOf ov bs = bs.map (fun b0 =>
      ⟨b0.name, b0.modules.filter (fun kv => !((promotedKeys ov bs).contains kv.1))⟩) ∧
    classify ov bs =
      ⟨"vendor", vendorModulesOf ov bs⟩ :: ⟨"common", commonModulesOf ov bs⟩ ::
        pageBundlesOf ov bs :=
  ⟨collectSources_names_all_ok fe fread rmap wrap localePath isMinifyOn b.modules hall,
   vendor_keys_order ov bs, common_keys_order ov bs, rfl, rfl⟩

/-- C3 counterexample: after classifying `cxOrderBundles`, the second page
bundle compiles in its own insertion order `[a, b]`, which differs from the
global first-seen discovery order restricted to its members `[b, a]`. -/
theorem c3_order_counterexample :
    (collectSources (fun _ => true) (fun _ => some "S") (fun p => p) (fun _ c _ => c)
        "L" false cxOrderPage.modules).map Prod.fst = ["a", "b"] ∧
    (discoveryOrder cxOrderBundles).filter (fun n => hasKey cxOrderPage.modules n) =
      ["b", "a"] ∧
    ¬ ((collectSources (fun _ => true) (fun _ => some "S") (fun p => p) (fun _ c _ => c)
        "L" false cxOrderPage.modules).map Prod.fst =
       (discoveryOrder cxOrderBundles).filter (fun n => hasKey cxOrderPage.modules n)) :=
  ⟨by decide, by decide, by decide⟩

/-- Witness for the amended C3 theorem at concrete inputs. -/
theorem c3_order_amended_witness :
    (∀ kv ∈ cxOrderPage.modules,
      moduleResolves (fun _ => true) (fun _ => some "S") (fun p => p) "L" false kv = true) ∧
    ((collectSources (fun _ => true) (fun _ => some "S") (fun p => p) (fun _ c _ => c)
        "L" false cxOrderPage.modules).map Prod.fst = cxOrderPage.modules.map Prod.fst ∧
     (vendorModulesOf [] wInfraBundles).map Prod.fst =
       (discoveryOrder wInfraBundles).filter
         (fun n => hasKey (vendorModulesOf [] wInfraBundles) n) ∧
     (commonModulesOf [] wInfraBundles).map Prod.fst =
       (discoveryOrder wInfraBundles).filter
         (fun n => hasKey (commonModulesOf [] wInfraBundles) n) ∧
     pageBundlesOf [] wInfraBundles = wInfraBundles.map (fun b0 =>
       ⟨b0.name, b0.modules.filter
         (fun kv => !((promotedKeys [] wInfraBundles).contains kv.1))⟩) ∧
     classify [] wInfraBundles =
       ⟨"vendor", vendorModulesOf [] wInfraBundles⟩ ::
         ⟨"common", commonModulesOf [] wInfraBundles⟩ :: pageBundlesOf [] wInfraBundles) :=
  ⟨by decide,
   c3_order_amended [] wInfraBundles (fun _ => true) (fun _ => some "S") (fun p => p)
     (fun _ c _ => c) "L" false cxOrderPage (by decide)⟩


/-- C5 (amended): for a non-static JS module, `resolveFile` builds the
minified and unminified filename variants, tries the mode-preferred one
first and the other second, returns the first that exists, and when neither
exists fails with the second `fs.access` rejection, an error naming only
the fallback path (not both attempted paths); a failed module is skipped
from the collection while the remaining modules are processed unchanged. -/
theorem c5_resolution_amended (fe : String → Bool)
    (rootDir moduleName modulePath : String) (isMinifyOn : Bool)
    (fread : String → Option String) (rmap : String → String)
    (wrap : String → String → String → String) (localePath : String)
    (kv : String × String) (rest : List (String × String))
    (hstatic : isStaticModule moduleName (jsFullPath rootDir modulePath) = false) :
    (fe (primaryCandidate rootDir modulePath isMinifyOn) = true →
      resolveFile fe rootDir moduleName modulePath isMinifyOn =
        Except.ok (primaryCandidate rootDir modulePath isMinifyOn)) ∧
    (fe (primaryCandidate rootDir modulePath isMinifyOn) = false →
     fe (fallbackCandidate rootDir modulePath isMinifyOn) = true →
      resolveFile fe rootDir moduleName modulePath isMinifyOn =
        Except.ok (fallbackCandidate rootDir modulePath isMinifyOn)) ∧
    (fe (primaryCandidate rootDir modulePath isMinifyOn) = false →
     fe (fallbackCandidate rootDir modulePath isMinifyOn) = false →
      resolveFile fe rootDir moduleName modulePath isMinifyOn =
        Except.error (enoentMsg (fallbackCandidate rootDir modulePath isMinifyOn))) ∧
    (moduleResolves fe fread rmap localePath isMinifyOn kv = false →
      collectSources fe fread rmap wrap localePath isMinifyOn (kv :: rest) =
        collectSources fe fread rmap wrap localePath isMinifyOn rest) := by
  refine ⟨?_, ?_, ?_, ?_⟩
  · intro hp
    simp [resolveFile, hstatic, hp]
  · intro hp hf
    simp [resolveFile, hstatic, hp, hf]
  · intro hp hf
    simp [resolveFile, hstatic, hp, hf]
  · intro hfail
    unfold moduleResolves at hfail
    rw [collectSources, collectSources]
    simp only [List.foldl_cons]
    cases hr : resolveFile fe localePath kv.1 (rmap kv.2) isMinifyOn with
    | ok absPath =>
      rw [hr] at hfail
      simp only [] at hfail
      cases hfr : fread absPath with
      | some content =>
        rw [hfr] at hfail
        simp at hfail
      | none => simp [hfr]
    | error e => simp

/-- C5 counterexample: with neither variant on disk, the escaping error is
the `fs.access` rejection for the fallback path; the primary attempted path
does not occur anywhere in its message, so the error does not name both
attempted paths. -/
theorem c5_resolution_counterexample :
    resolveFile (fun _ => false) "r" "m" "m.js" false =
      Except.error (enoentMsg (fallbackCandidate "r" "m.js" false)) ∧
    primaryCandidate "r" "m.js" false ≠ fallbackCandidate "r" "m.js" false ∧
    strContains (enoentMsg (fallbackCandidate "r" "m.js" false))
      (primaryCandidate "r" "m.js" false) = false :=
  ⟨rfl, by decide, by decide⟩

/-- Witness for the amended C5 theorem at concrete inputs: no variant
exists, the error names the fallback path, and the failed module is
skipped while the rest of the bundle is still collected. -/
theorem c5_resolution_amended_witness :
    isStaticModule "m" (jsFullPath "r" "m.js") = false ∧
    (fun _ => false : String → Bool) (primaryCandidate "r" "m.js" false) = false ∧
    (fun _ => false : String → Bool) (fallbackCandidate "r" "m.js" false) = false ∧
    moduleResolves (fun _ => false) (fun _ => some "S") (fun p => p) "r" false
      ("m", "m.js") = false ∧
    (resolveFile (fun _ => false) "r" "m" "m.js" false =
      Except.error (enoentMsg (fallbackCandidate "r" "m.js" false))) ∧
    (collectSources (fun _ => false) (fun _ => some "S") (fun p => p) (fun _ c _ => c)
        "r" false (("m", "m.js") :: [("n", "n.js")]) =
      collectSources (fun _ => false) (fun _ => some "S") (fun p => p) (fun _ c _ => c)
        "r" false [("n", "n.js")]) :=
  ⟨by decide, rfl, rfl, by decide,
   (c5_resolution_amended (fun _ => false) "r" "m" "m.js" false (fun _ => some "S")
      (fun p => p) (fun _ c _ => c) "r" ("m", "m.js") [("n", "n.js")]
      (by decide)).2.2.1 rfl rfl,
   (c5_resolution_amended (fun _ => false) "r" "m" "m.js" false (fun _ => some "S")
      (fun p => p) (fun _ c _ => c) "r" ("m", "m.js") [("n", "n.js")]
      (by decide)).2.2.2 (by decide)⟩


/-! ## Merger helper lemmas -/

theorem startMarker_ne_nil : startMarker ≠ [] := by decide

theorem endMarker_ne_nil : endMarker ≠ [] := by decide

theorem firstOccIdx_nil_of_ne (pat : List Char) (hp : pat ≠ []) :
    firstOccIdx pat [] = none := by
  unfold firstOccIdx
  rw [if_neg (by simpa using hp)]

theorem firstOccIdx_at_zero (pat s : List Char) (hp : pat ≠ []) (h : pat <+: s) :
    firstOccIdx pat s = some 0 := by
  cases s with
  | nil =>
    exact absurd (List.prefix_nil.mp h) hp
  | cons c r =>
    unfold firstOccIdx
    rw [if_pos (List.isPrefixOf_iff_prefix.mpr h)]

theorem firstOccIdx_none_iff (pat : List Char) (hp : pat ≠ []) :
    ∀ s : List Char, firstOccIdx pat s = none ↔ ¬ pat <:+: s := by
  intro s
  induction s with
  | nil =>
    rw [firstOccIdx_nil_of_ne pat hp]
    simp [List.infix_nil, hp]
  | cons c r ih =>
    unfold firstOccIdx
    by_cases hpre : pat.isPrefixOf (c :: r) = true
    · rw [if_pos hpre]
      constructor
      · intro h; simp at h
      · intro h
        exact absurd (List.isPrefixOf_iff_prefix.mp hpre).isInfix h
    · rw [if_neg hpre]
      rw [List.infix_cons_iff]
      constructor
      · intro h hor
        rcases hor with hl | hr
        · exact hpre (List.isPrefixOf_iff_prefix.mpr hl)
        · exact (ih.mp (by simpa using h)) hr
      · intro h
        have : firstOccIdx pat r = none := ih.mpr (fun hr => h (Or.inr hr))
        simp [this]

theorem mem_of_prefix_getElem (pat s : List Char) (h : pat <+: s)
    (i : Nat) (hi : i < pat.length) : s[i]? = some pat[i] := by
  obtain ⟨t, rfl⟩ := h
  rw [List.getElem?_append_left hi]
  exact List.getElem?_eq_getElem hi

theorem prefix_cons_append_cases (pat : List Char) (a : Char) (x y : List Char)
    (c : Char) (hc : c ∉ pat) (h : pat <+: a :: (x ++ c :: y)) : pat <+: a :: x := by
  by_cases hl : pat.length ≤ (a :: x).length
  · have hsplit : a :: (x ++ c :: y) = (a :: x) ++ (c :: y) := by simp
    rw [hsplit] at h
    have htake := List.prefix_iff_eq_take.mp h
    rw [List.take_append_of_le_length hl] at htake
    rw [htake]
    exact List.take_prefix _ _
  · exfalso
    push_neg at hl
    have hidx : (a :: (x ++ c :: y))[(a :: x).length]? = some c := by
      have hsplit : a :: (x ++ c :: y) = (a :: x) ++ (c :: y) := by simp
      rw [hsplit, List.getElem?_append_right (Nat.le_refl _)]
      simp
    have hval := mem_of_prefix_getElem pat _ h (a :: x).length hl
    rw [hidx] at hval
    have hcc : c = pat[(a :: x).length] := Option.some.inj hval
    refine hc ?_
    rw [hcc]
    exact List.getElem_mem hl

theorem prefix_cons_append_iff (pat : List Char) (a : Char) (x y : List Char)
    (c : Char) (hc : c ∉ pat) :
    pat <+: a :: (x ++ c :: y) ↔ pat <+: a :: x := by
  constructor
  · exact prefix_cons_append_cases pat a x y c hc
  · intro h
    have hsplit : a :: (x ++ c :: y) = (a :: x) ++ (c :: y) := by simp
    rw [hsplit]
    exact h.trans (List.prefix_append _ _)

theorem head_mem_of_prefix_cons (pat : List Char) (c : Char) (y : List Char)
    (hp : pat ≠ []) (h : pat <+: c :: y) : c ∈ pat := by
  cases pat with
  | nil => exact absurd rfl hp
  | cons p0 pr =>
    obtain ⟨t, ht⟩ := h
    injection ht with h1 _
    rw [h1]
    exact List.mem_cons_self _ _

theorem firstOccIdx_append_sep (pat : List Char) (c : Char) (hp : pat ≠ [])
    (hc : c ∉ pat) :
    ∀ (x y : List Char), ¬ pat <:+: x →
      firstOccIdx pat (x ++ c :: y) =
        (firstOccIdx pat y).map (· + (x.length + 1)) := by
  intro x
  induction x with
  | nil =>
    intro y _
    have hstep : firstOccIdx pat (c :: y) =
        if pat.isPrefixOf (c :: y) = true then some 0
        else (firstOccIdx pat y).map (· + 1) := rfl
    have hnp : ¬ pat.isPrefixOf (c :: y) = true := by
      intro hpre
      exact hc (head_mem_of_prefix_cons pat c y hp (List.isPrefixOf_iff_prefix.mp hpre))
    rw [List.nil_append, hstep, if_neg hnp]
    cases hy : firstOccIdx pat y with
    | none => simp
    | some k => simp
  | cons a x' ih =>
    intro y hx
    have hstep : firstOccIdx pat ((a :: x') ++ c :: y) =
        if pat.isPrefixOf (a :: (x' ++ c :: y)) = true then some 0
        else (firstOccIdx pat (x' ++ c :: y)).map (· + 1) := rfl
    have hnp : ¬ pat.isPrefixOf (a :: (x' ++ c :: y)) = true := by
      intro hpre
      have hpre' := List.isPrefixOf_iff_prefix.mp hpre
      exact hx (prefix_cons_append_cases pat a x' y c hc hpre').isInfix
    rw [hstep, if_neg hnp]
    have hx' : ¬ pat <:+: x' := by
      intro hinf
      exact hx (hinf.trans (List.suffix_cons a x').isInfix)
    rw [ih y hx']
    cases hy : firstOccIdx pat y with
    | none => simp
    | some k =>
      simp only [Option.map_some']
      rw [Option.some.injEq]
      simp only [List.length_cons]
      omega

theorem countOcc_eq_zero_iff (pat : List Char) (hp : pat ≠ []) :
    ∀ s : List Char, countOcc pat s = 0 ↔ ¬ pat <:+: s := by
  intro s
  induction s with
  | nil =>
    simp only [countOcc]
    simp [List.infix_nil, hp]
  | cons c r ih =>
    simp only [countOcc]
    rw [List.infix_cons_iff]
    by_cases hpre : pat.isPrefixOf (c :: r) = true
    · rw [if_pos hpre]
      constructor
      · intro h; omega
      · intro h
        exact absurd (Or.inl (List.isPrefixOf_iff_prefix.mp hpre)) h
    · rw [if_neg hpre]
      constructor
      · intro h hor
        rcases hor with hl | hr
        · exact hpre (List.isPrefixOf_iff_prefix.mpr hl)
        · exact (ih.mp (by omega)) hr
      · intro h
        have := ih.mpr (fun hr => h (Or.inr hr))
        omega

theorem countOcc_append_sep (pat : List Char) (c : Char) (hp : pat ≠ [])
    (hc : c ∉ pat) :
    ∀ x y, countOcc pat (x ++ c :: y) = countOcc pat x + countOcc pat y := by
  intro x
  induction x with
  | nil =>
    intro y
    show countOcc pat (c :: y) = countOcc pat [] + countOcc pat y
    simp only [countOcc]
    have hnp : ¬ pat.isPrefixOf (c :: y) = true := by
      intro hpre
      exact hc (head_mem_of_prefix_cons pat c y hp (List.isPrefixOf_iff_prefix.mp hpre))
    rw [if_neg hnp]
  | cons a x' ih =>
    intro y
    show countOcc pat (a :: (x' ++ c :: y)) = countOcc pat (a :: x') + countOcc pat y
    simp only [countOcc]
    rw [ih]
    have heq : pat.isPrefixOf (a :: (x' ++ c :: y)) = pat.isPrefixOf (a :: x') := by
      rw [Bool.eq_iff_iff, List.isPrefixOf_iff_prefix, List.isPrefixOf_iff_prefix]
      exact prefix_cons_append_iff pat a x' y c hc
    rw [heq]
    omega

theorem startMarker_length : startMarker.length = 20 := rfl

theorem endMarker_length : endMarker.length = 18 := rfl

theorem not_infix_nil_start : ¬ startMarker <:+: ([] : List Char) := by
  rw [List.infix_nil]
  exact startMarker_ne_nil

theorem not_infix_nil_end : ¬ endMarker <:+: ([] : List Char) := by
  rw [List.infix_nil]
  exact endMarker_ne_nil

theorem firstOcc_start_shape (T F : List Char) (hT : ¬ startMarker <:+: T) :
    firstOccIdx startMarker (T ++ ';' :: '\n' :: injectionOf F) =
      some (T.length + 3) := by
  have h1 := firstOccIdx_append_sep startMarker ';' startMarker_ne_nil (by decide)
    T ('\n' :: injectionOf F) hT
  rw [h1]
  have h2 := firstOccIdx_append_sep startMarker '\n' startMarker_ne_nil (by decide)
    [] (injectionOf F) not_infix_nil_start
  simp only [List.nil_append, List.length_nil, Nat.zero_add] at h2
  rw [h2]
  unfold injectionOf
  have h3 := firstOccIdx_append_sep startMarker '\n' startMarker_ne_nil (by decide)
    [] (startMarker ++ '\n' :: (F ++ '\n' :: endMarker)) not_infix_nil_start
  simp only [List.nil_append, List.length_nil, Nat.zero_add] at h3
  rw [h3]
  rw [firstOccIdx_at_zero startMarker _ startMarker_ne_nil (List.prefix_append _ _)]
  simp only [Option.map_some']
  rw [Option.some.injEq]
  omega

theorem firstOcc_end_inner (F : List Char) (hF : ¬ endMarker <:+: F) :
    firstOccIdx endMarker ('\n' :: (F ++ '\n' :: endMarker)) = some (F.length + 2) := by
  have h1 := firstOccIdx_append_sep endMarker '\n' endMarker_ne_nil (by decide)
    [] (F ++ '\n' :: endMarker) not_infix_nil_end
  simp only [List.nil_append, List.length_nil, Nat.zero_add] at h1
  rw [h1]
  have h2 := firstOccIdx_append_sep endMarker '\n' endMarker_ne_nil (by decide)
    F endMarker hF
  rw [h2]
  rw [firstOccIdx_at_zero endMarker endMarker endMarker_ne_nil (List.prefix_refl _)]
  simp only [Option.map_some']
  rw [Option.some.injEq]
  omega

theorem shape_split_inner (T F : List Char) :
    T ++ ';' :: '\n' :: injectionOf F =
      (T ++ ';' :: '\n' :: '\n' :: startMarker) ++ ('\n' :: (F ++ '\n' :: endMarker)) := by
  simp [injectionOf]

theorem shape_split_semi (T F : List Char) :
    T ++ ';' :: '\n' :: injectionOf F =
      (T ++ [';', '\n']) ++ ('\n' :: (startMarker ++ '\n' :: (F ++ '\n' :: endMarker))) := by
  simp [injectionOf]

theorem shape_split_region (T F : List Char) :
    T ++ ';' :: '\n' :: injectionOf F =
      (T ++ [';', '\n', '\n']) ++ (startMarker ++ '\n' :: (F ++ '\n' :: endMarker)) := by
  simp [injectionOf]

theorem shape_length (T F : List Char) :
    (T ++ ';' :: '\n' :: injectionOf F).length = T.length + F.length + 43 := by
  have h1 := startMarker_length
  have h2 := endMarker_length
  simp [injectionOf, List.length_append]
  omega

theorem drop_to_inner (T F : List Char) :
    (T ++ ';' :: '\n' :: injectionOf F).drop (T.length + 3 + startMarker.length) =
      '\n' :: (F ++ '\n' :: endMarker) := by
  rw [shape_split_inner]
  refine List.drop_left' ?_
  simp [startMarker_length]

theorem getq_semi (T F : List Char) :
    (T ++ ';' :: '\n' :: injectionOf F).get? (T.length + 2) = some '\n' := by
  rw [shape_split_semi]
  rw [List.get?_eq_getElem?]
  rw [List.getElem?_append_right (by simp)]
  simp

theorem take_semi (T F : List Char) :
    (T ++ ';' :: '\n' :: injectionOf F).take (T.length + 2) = T ++ [';', '\n'] := by
  rw [shape_split_semi]
  refine List.take_left' ?_
  simp

theorem stripGo_nil (fuel : Nat) : stripGo fuel [] = [] := by
  cases fuel with
  | zero => rfl
  | succ n =>
    unfold stripGo
    rw [firstOccIdx_nil_of_ne startMarker startMarker_ne_nil]

theorem stripGo_no_start (fuel : Nat) (s : List Char) (h : ¬ startMarker <:+: s) :
    stripGo fuel s = s := by
  cases fuel with
  | zero => rfl
  | succ n =>
    unfold stripGo
    rw [(firstOccIdx_none_iff startMarker startMarker_ne_nil s).mpr h]

theorem stripMarkers_no_start (s : List Char) (h : ¬ startMarker <:+: s) :
    stripMarkers s = s := stripGo_no_start s.length s h

theorem stripMarkers_merge_shape (T F : List Char)
    (hT : ¬ startMarker <:+: T) (hF : ¬ endMarker <:+: F) :
    stripMarkers (T ++ ';' :: '\n' :: injectionOf F) = T ++ [';', '\n'] := by
  have hstart := firstOcc_start_shape T F hT
  have hend : firstOccIdx endMarker
      ((T ++ ';' :: '\n' :: injectionOf F).drop (T.length + 3 + startMarker.length)) =
      some (F.length + 2) := by
    rw [drop_to_inner T F]
    exact firstOcc_end_inner F hF
  rw [stripMarkers, shape_length T F]
  obtain ⟨n, hn⟩ : ∃ n, T.length + F.length + 43 = n + 1 :=
    ⟨T.length + F.length + 42, by omega⟩
  rw [hn]
  unfold stripGo
  split
  · rename_i h
    rw [hstart] at h
    exact Option.noConfusion h
  · rename_i i hi
    rw [hstart] at hi
    injection hi with hi'
    subst hi'
    split
    · rename_i h
      rw [hend] at h
      exact Option.noConfusion h
    · rename_i k hk
      rw [hend] at hk
      injection hk with hk'
      subst hk'
      show (T ++ ';' :: '\n' :: injectionOf F).take
          (if 0 < T.length + 3 ∧
              (T ++ ';' :: '\n' :: injectionOf F).get? (T.length + 3 - 1) = some '\n'
           then T.length + 3 - 1 else T.length + 3) ++
          stripGo n ((T ++ ';' :: '\n' :: injectionOf F).drop
            (T.length + 3 + startMarker.length + (F.length + 2) + endMarker.length)) =
        T ++ [';', '\n']
      have hb : (if 0 < T.length + 3 ∧
            (T ++ ';' :: '\n' :: injectionOf F).get? (T.length + 3 - 1) = some '\n'
          then T.length + 3 - 1 else T.length + 3) = T.length + 2 := by
        rw [if_pos ?_]
        · omega
        refine ⟨by omega, ?_⟩
        have hidx : T.length + 3 - 1 = T.length + 2 := by omega
        rw [hidx]
        exact getq_semi T F
      rw [hb]
      have hall : T.length + 3 + startMarker.length + (F.length + 2) + endMarker.length =
          (T ++ ';' :: '\n' :: injectionOf F).length := by
        rw [shape_length T F, startMarker_length, endMarker_length]
        omega
      rw [hall, List.drop_length, stripGo_nil, List.append_nil, take_semi]

theorem markerRegion_merge_shape (T F : List Char)
    (hT : ¬ startMarker <:+: T) (hF : ¬ endMarker <:+: F) :
    markerRegion (T ++ ';' :: '\n' :: injectionOf F) =
      some (startMarker ++ '\n' :: (F ++ '\n' :: endMarker)) := by
  have hstart := firstOcc_start_shape T F hT
  have hend : firstOccIdx endMarker
      ((T ++ ';' :: '\n' :: injectionOf F).drop (T.length + 3 + startMarker.length)) =
      some (F.length + 2) := by
    rw [drop_to_inner T F]
    exact firstOcc_end_inner F hF
  unfold markerRegion
  split
  · rename_i h
    rw [hstart] at h
    exact Option.noConfusion h
  · rename_i i hi
    rw [hstart] at hi
    injection hi with hi'
    subst hi'
    split
    · rename_i h
      rw [hend] at h
      exact Option.noConfusion h
    · rename_i k hk
      rw [hend] at hk
      injection hk with hk'
      subst hk'
      rw [Option.some.injEq]
      have hdrop : (T ++ ';' :: '\n' :: injectionOf F).drop (T.length + 3) =
          startMarker ++ '\n' :: (F ++ '\n' :: endMarker) := by
        rw [shape_split_region]
        refine List.drop_left' ?_
        simp
      rw [hdrop]
      have hlen : (startMarker ++ '\n' :: (F ++ '\n' :: endMarker)).length =
          startMarker.length + (F.length + 2) + endMarker.length := by
        simp
        omega
      rw [← hlen, List.take_length]

theorem dropWhile_head_struct (p : Char → Bool) :
    ∀ l : List Char, l.dropWhile p = [] ∨
      ∃ a t, l.dropWhile p = a :: t ∧ p a = false := by
  intro l
  induction l with
  | nil => left; rfl
  | cons c r ih =>
    by_cases hpc : p c = true
    · rw [List.dropWhile_cons_of_pos hpc]
      exact ih
    · right
      exact ⟨c, r, List.dropWhile_cons_of_neg hpc, Bool.eq_false_iff.mpr hpc⟩

theorem trimWS_prefix_dropWhile (x : List Char) :
    trimWS x <+: x.dropWhile isJsSpace := by
  unfold trimWS
  rw [← List.reverse_suffix]
  rw [List.reverse_reverse]
  exact List.dropWhile_suffix isJsSpace

theorem trimWS_head_struct (x : List Char) :
    trimWS x = [] ∨ ∃ a t, trimWS x = a :: t ∧ isJsSpace a = false := by
  cases htw : trimWS x with
  | nil => exact Or.inl rfl
  | cons a t =>
    right
    refine ⟨a, t, rfl, ?_⟩
    have hpre := trimWS_prefix_dropWhile x
    rw [htw] at hpre
    obtain ⟨rest, hrest⟩ := hpre
    rcases dropWhile_head_struct isJsSpace x with hnil | ⟨a', t', heq, ha'⟩
    · rw [hnil] at hrest
      exact absurd hrest.symm (by simp)
    · rw [heq] at hrest
      have : a = a' := by
        have := hrest
        rw [List.cons_append] at this
        injection this.symm with h1 _
        exact h1.symm
      rw [this]
      exact ha'

theorem trimWS_within (s : List Char) : trimWS s <:+: s :=
  (trimWS_prefix_dropWhile s).isInfix.trans (List.dropWhile_suffix isJsSpace).isInfix

theorem infix_of_infix_trimWS (pat s : List Char) (h : pat <:+: trimWS s) :
    pat <:+: s :=
  h.trans (trimWS_within s)

theorem trim_of_trimmed_append (T : List Char)
    (hhead : T = [] ∨ ∃ a t, T = a :: t ∧ isJsSpace a = false) :
    trimWS (T ++ [';', '\n']) = T ++ [';'] := by
  have h1 : (T ++ [';', '\n']).dropWhile isJsSpace = T ++ [';', '\n'] := by
    rcases hhead with rfl | ⟨a, t, rfl, ha⟩
    · rw [List.nil_append]
      decide
    · rw [List.cons_append]
      exact List.dropWhile_cons_of_neg (by rw [ha]; exact Bool.false_ne_true)
  unfold trimWS
  rw [h1]
  have h2 : (T ++ [';', '\n']).reverse = '\n' :: ';' :: T.reverse := by simp
  rw [h2]
  rw [List.dropWhile_cons_of_pos (by decide)]
  rw [List.dropWhile_cons_of_neg (by decide)]
  simp

theorem not_infix_append_singleton (pat : List Char) (x : List Char) (c : Char)
    (hp : pat ≠ []) (hc : c ∉ pat) (hx : ¬ pat <:+: x) : ¬ pat <:+: x ++ [c] := by
  intro h
  obtain ⟨u, v, huv⟩ := h
  rcases List.eq_nil_or_concat v with rfl | ⟨v', d, rfl⟩
  · rw [List.append_nil] at huv
    rcases List.eq_nil_or_concat pat with rfl | ⟨p', d, rfl⟩
    · exact hp rfl
    · rw [List.concat_eq_append] at huv
      have hre : (u ++ p') ++ [d] = x ++ [c] := by
        rw [← huv]
        simp
      have hinj := List.append_inj' hre rfl
      have hdc : d = c := by
        have := hinj.2
        injection this
      exact hc (by rw [← hdc]; simp)
  · rw [List.concat_eq_append] at huv
    have hre : (u ++ pat ++ v') ++ [d] = x ++ [c] := by
      rw [← huv]
      simp
    have hinj := List.append_inj' hre rfl
    exact hx ⟨u, v', by rw [hinj.1]⟩

theorem countOcc_merge_start (T F : List Char)
    (hT : ¬ startMarker <:+: T) (hFs : ¬ startMarker <:+: F) :
    countOcc startMarker (T ++ ';' :: '\n' :: injectionOf F) = 1 := by
  rw [countOcc_append_sep startMarker ';' startMarker_ne_nil (by decide) T]
  rw [(countOcc_eq_zero_iff startMarker startMarker_ne_nil T).mpr hT]
  have h2 := countOcc_append_sep startMarker '\n' startMarker_ne_nil (by decide)
    [] (injectionOf F)
  simp only [List.nil_append] at h2
  rw [h2]
  unfold injectionOf
  have h3 := countOcc_append_sep startMarker '\n' startMarker_ne_nil (by decide)
    [] (startMarker ++ '\n' :: (F ++ '\n' :: endMarker))
  simp only [List.nil_append] at h3
  rw [h3]
  rw [countOcc_append_sep startMarker '\n' startMarker_ne_nil (by decide) startMarker]
  rw [countOcc_append_sep startMarker '\n' startMarker_ne_nil (by decide) F]
  rw [(countOcc_eq_zero_iff startMarker startMarker_ne_nil F).mpr hFs]
  have hself : countOcc startMarker startMarker = 1 := by decide
  have hend0 : countOcc startMarker endMarker = 0 := by decide
  have hnil0 : countOcc startMarker [] = 0 := rfl
  rw [hself, hend0, hnil0]

theorem countOcc_merge_end (T F : List Char)
    (hT : ¬ endMarker <:+: T) (hFe : ¬ endMarker <:+: F) :
    countOcc endMarker (T ++ ';' :: '\n' :: injectionOf F) = 1 := by
  rw [countOcc_append_sep endMarker ';' endMarker_ne_nil (by decide) T]
  rw [(countOcc_eq_zero_iff endMarker endMarker_ne_nil T).mpr hT]
  have h2 := countOcc_append_sep endMarker '\n' endMarker_ne_nil (by decide)
    [] (injectionOf F)
  simp only [List.nil_append] at h2
  rw [h2]
  unfold injectionOf
  have h3 := countOcc_append_sep endMarker '\n' endMarker_ne_nil (by decide)
    [] (startMarker ++ '\n' :: (F ++ '\n' :: endMarker))
  simp only [List.nil_append] at h3
  rw [h3]
  rw [countOcc_append_sep endMarker '\n' endMarker_ne_nil (by decide) startMarker]
  rw [countOcc_append_sep endMarker '\n' endMarker_ne_nil (by decide) F]
  rw [(countOcc_eq_zero_iff endMarker endMarker_ne_nil F).mpr hFe]
  have hstart0 : countOcc endMarker startMarker = 0 := by decide
  have hself : countOcc endMarker endMarker = 1 := by decide
  have hnil0 : countOcc endMarker [] = 0 := rfl
  rw [hstart0, hself, hnil0]

/-- C2 (amended): for a target file content whose text, after stripping
marker-delimited spans, contains no remaining marker sentinel (all of its
marker occurrences form complete regions), and a fragment containing no
marker sentinel, the merger is idempotent on the marker region: one merge
yields the fresh region from start sentinel through end sentinel, a second
merge with the same fragment yields a byte-identical marker region, and
after any such merge the file contains exactly one start and one end
sentinel. -/
theorem c2_idempotent_merge (C F : List Char)
    (h1 : ¬ startMarker <:+: stripMarkers C) (h2 : ¬ endMarker <:+: stripMarkers C)
    (h3 : ¬ startMarker <:+: F) (h4 : ¬ endMarker <:+: F) :
    markerRegion (mergeConfig C F) =
      some (startMarker ++ '\n' :: (F ++ '\n' :: endMarker)) ∧
    markerRegion (mergeConfig (mergeConfig C F) F) = markerRegion (mergeConfig C F) ∧
    countOcc startMarker (mergeConfig C F) = 1 ∧
    countOcc endMarker (mergeConfig C F) = 1 := by
  have hT_start : ¬ startMarker <:+: trimWS (stripMarkers C) :=
    fun h => h1 (infix_of_infix_trimWS _ _ h)
  have hT_end : ¬ endMarker <:+: trimWS (stripMarkers C) :=
    fun h => h2 (infix_of_infix_trimWS _ _ h)
  have hm : mergeConfig C F =
      trimWS (stripMarkers C) ++ ';' :: '\n' :: injectionOf F := rfl
  have hr1 : markerRegion (mergeConfig C F) =
      some (startMarker ++ '\n' :: (F ++ '\n' :: endMarker)) := by
    rw [hm]
    exact markerRegion_merge_shape _ F hT_start h4
  refine ⟨hr1, ?_, ?_, ?_⟩
  · have hstrip : stripMarkers (mergeConfig C F) =
        trimWS (stripMarkers C) ++ [';', '\n'] := by
      rw [hm]
      exact stripMarkers_merge_shape _ F hT_start h4
    have hm2 : mergeConfig (mergeConfig C F) F =
        (trimWS (stripMarkers C) ++ [';']) ++ ';' :: '\n' :: injectionOf F := by
      show trimWS (stripMarkers (mergeConfig C F)) ++ ';' :: '\n' :: injectionOf F = _
      rw [hstrip, trim_of_trimmed_append _ (trimWS_head_struct (stripMarkers C))]
    rw [hm2, hr1]
    exact markerRegion_merge_shape _ F
      (not_infix_append_singleton startMarker _ ';' startMarker_ne_nil (by decide) hT_start)
      h4
  · rw [hm]
    exact countOcc_merge_start _ F hT_start h3
  · rw [hm]
    exact countOcc_merge_end _ F hT_end h4

/-- C2 counterexample: merging into a file consisting of a lone unterminated
start sentinel produces two start sentinels in the output, and a second run
produces a different marker region than the first, contradicting the claim
as stated for arbitrary file contents. -/
theorem c2_idempotent_merge_counterexample :
    countOcc startMarker (mergeConfig cxMergeStray "y".toList) = 2 ∧
    markerRegion (mergeConfig (mergeConfig cxMergeStray "y".toList) "y".toList) ≠
      markerRegion (mergeConfig cxMergeStray "y".toList) :=
  ⟨by decide, by decide⟩

/-- Witness for the amended C2 theorem at a concrete clean file content. -/
theorem c2_idempotent_merge_witness :
    (¬ startMarker <:+: stripMarkers "var x = 1".toList) ∧
    (¬ endMarker <:+: stripMarkers "var x = 1".toList) ∧
    (¬ startMarker <:+: "cfg".toList) ∧
    (¬ endMarker <:+: "cfg".toList) ∧
    (markerRegion (mergeConfig "var x = 1".toList "cfg".toList) =
      some (startMarker ++ '\n' :: ("cfg".toList ++ '\n' :: endMarker)) ∧
     markerRegion (mergeConfig (mergeConfig "var x = 1".toList "cfg".toList) "cfg".toList) =
      markerRegion (mergeConfig "var x = 1".toList "cfg".toList) ∧
     countOcc startMarker (mergeConfig "var x = 1".toList "cfg".toList) = 1 ∧
     countOcc endMarker (mergeConfig "var x = 1".toList "cfg".toList) = 1) :=
  ⟨by decide, by decide, by decide, by decide,
   c2_idempotent_merge "var x = 1".toList "cfg".toList
     (by decide) (by decide) (by decide) (by decide)⟩

/-- C10: one merger run writes exactly the stripped and trimmed original
content followed by a semicolon, a newline and the freshly built injection
block; on a file whose stripped content holds no start sentinel (in
particular on the output of a previous run from such a file), the next run
adds exactly one more semicolon before the block, so consecutive outputs
differ as whole files while their marker regions are byte-identical. -/
theorem c10_merge_output_equation (C F : List Char)
    (h1 : ¬ startMarker <:+: stripMarkers C)
    (h4 : ¬ endMarker <:+: F) :
    mergeConfig C F = trimWS (stripMarkers C) ++ ';' :: '\n' :: injectionOf F ∧
    mergeConfig (mergeConfig C F) F =
      trimWS (stripMarkers C) ++ ';' :: ';' :: '\n' :: injectionOf F ∧
    mergeConfig (mergeConfig C F) F ≠ mergeConfig C F ∧
    markerRegion (mergeConfig (mergeConfig C F) F) =
      markerRegion (mergeConfig C F) := by
  have hT_start : ¬ startMarker <:+: trimWS (stripMarkers C) :=
    fun h => h1 (infix_of_infix_trimWS _ _ h)
  have hm : mergeConfig C F =
      trimWS (stripMarkers C) ++ ';' :: '\n' :: injectionOf F := rfl
  have hstrip : stripMarkers (mergeConfig C F) =
      trimWS (stripMarkers C) ++ [';', '\n'] := by
    rw [hm]
    exact stripMarkers_merge_shape _ F hT_start h4
  have hm2 : mergeConfig (mergeConfig C F) F =
      (trimWS (stripMarkers C) ++ [';']) ++ ';' :: '\n' :: injectionOf F := by
    show trimWS (stripMarkers (mergeConfig C F)) ++ ';' :: '\n' :: injectionOf F = _
    rw [hstrip, trim_of_trimmed_append _ (trimWS_head_struct (stripMarkers C))]
  have hm2' : mergeConfig (mergeConfig C F) F =
      trimWS (stripMarkers C) ++ ';' :: ';' :: '\n' :: injectionOf F := by
    rw [hm2]
    simp
  refine ⟨hm, hm2', ?_, ?_⟩
  · intro he
    have hlen := congrArg List.length he
    rw [hm2', hm] at hlen
    simp at hlen
  · rw [hm2, hm]
    rw [markerRegion_merge_shape _ F hT_start h4]
    exact markerRegion_merge_shape _ F
      (not_infix_append_singleton startMarker _ ';' startMarker_ne_nil (by decide) hT_start)
      h4

/-- C10 counterexample: on a file consisting of a lone unterminated start
sentinel, the second run does not merely append one semicolon — the whole
stray-sentinel prefix is consumed — so the output length is not the first
output's length plus one. -/
theorem c10_merge_output_counterexample :
    (mergeConfig (mergeConfig cxMergeStray2 "w".toList) "w".toList).length ≠
      (mergeConfig cxMergeStray2 "w".toList).length + 1 := by
  decide

/-- Witness for the C10 theorem at a concrete clean file content. -/
theorem c10_merge_output_equation_witness :
    (¬ startMarker <:+: stripMarkers "var y = 2".toList) ∧
    (¬ endMarker <:+: "cfg2".toList) ∧
    (mergeConfig "var y = 2".toList "cfg2".toList =
      trimWS (stripMarkers "var y = 2".toList) ++ ';' :: '\n' :: injectionOf "cfg2".toList ∧
     mergeConfig (mergeConfig "var y = 2".toList "cfg2".toList) "cfg2".toList =
      trimWS (stripMarkers "var y = 2".toList) ++
        ';' :: ';' :: '\n' :: injectionOf "cfg2".toList ∧
     mergeConfig (mergeConfig "var y = 2".toList "cfg2".toList) "cfg2".toList ≠
      mergeConfig "var y = 2".toList "cfg2".toList ∧
     markerRegion (mergeConfig (mergeConfig "var y = 2".toList "cfg2".toList) "cfg2".toList) =
      markerRegion (mergeConfig "var y = 2".toList "cfg2".toList)) :=
  ⟨by decide, by decide,
   c10_merge_output_equation "var y = 2".toList "cfg2".toList (by decide) (by decide)⟩

end Magepack
